import Mathlib

/-!
# rpcx: the etcd registry plugin (`serverplugin/etcd.go`)

A shallow embedding of `EtcdRegisterPlugin` (`Register`, `Start` with its
refresh loop, `HandleConnAccept`) and of the Go library functions it calls,
followed by the properties of the registry proved over it.

Conventions of the embedding:

* a Go `string` and a Go `[]byte` are both a list of bytes (`GoString`), so the
  conversions `[]byte(s)` and `string(b)` are the identity;
* a Go `error` is `Option GoError`, `none` being `nil`;
* `time.Duration` is an `Int` holding the `int64` number of nanoseconds, and
  arithmetic on it wraps (`wrapInt64`);
* the receiver `*p`, the global `metrics.DefaultRegistry`, and the history of
  calls made to the store and to the logger are the fields of `World`; every
  method is a function from a world to a result and a world;
* the key/value store (`libkv`) is outside the repository: it is a parameter
  `lib : Libkv`, a state type with arbitrary `Put`/`Get` behaviour.
-/

namespace Rpcx

/-! ## Go values -/

/-- One byte. -/
abbrev Byte := Fin 256

/-- Go `string` (and `[]byte`): a finite sequence of bytes. -/
abbrev GoString := List Byte

/-- The bytes (UTF-8) of a string literal of the source. -/
def str (s : String) : GoString :=
  (s.toList.flatMap String.utf8EncodeChar).map (fun b => b.val)

/-- Go `error` values that are not `nil`; `Error` is the method `Error()`. -/
structure GoError where
  Error : GoString
deriving DecidableEq

/-- Go `errors.New`. -/
def errors.New (text : GoString) : GoError := ⟨text⟩

/-- Conversion of an integer to `int64` (two's complement wrap-around). -/
def wrapInt64 (x : Int) : Int := (x + 2 ^ 63) % 2 ^ 64 - 2 ^ 63

/-! ## Go `unicode/utf8`, `unicode`, `strings` -/

namespace utf8

def RuneError : Nat := 0xFFFD
def RuneSelf : Nat := 0x80
def UTFMax : Nat := 4

def maskx : Nat := 0x3F
def mask2 : Nat := 0x1F
def mask3 : Nat := 0x0F
def mask4 : Nat := 0x07
def locb : Nat := 0x80
def hicb : Nat := 0xBF

def xx : Nat := 0xF1
def as : Nat := 0xF0
def s1 : Nat := 0x02
def s2 : Nat := 0x13
def s3 : Nat := 0x03
def s4 : Nat := 0x23
def s5 : Nat := 0x34
def s6 : Nat := 0x04
def s7 : Nat := 0x44

/-- The table `first`: information about the first byte of an encoding. -/
def first (b : Nat) : Nat :=
  if b < 0x80 then as
  else if b < 0xC2 then xx
  else if b < 0xE0 then s1
  else if b = 0xE0 then s2
  else if b < 0xED then s3
  else if b = 0xED then s4
  else if b < 0xF0 then s3
  else if b = 0xF0 then s5
  else if b < 0xF4 then s6
  else if b = 0xF4 then s7
  else xx

/-- The table `acceptRanges`: `(lo, hi)` for the second byte. -/
def acceptRanges (i : Nat) : Nat × Nat :=
  match i with
  | 0 => (locb, hicb)
  | 1 => (0xA0, hicb)
  | 2 => (locb, 0x9F)
  | 3 => (0x90, hicb)
  | 4 => (locb, 0x8F)
  | _ => (0, 0)

/-- Go `utf8.DecodeRuneInString`: the first rune of `s` and its width. -/
def DecodeRuneInString (s : GoString) : Nat × Nat :=
  match s with
  | [] => (RuneError, 0)
  | c0 :: t =>
    let x := first c0.val
    if x ≥ as then
      (if x = as then c0.val else RuneError, 1)
    else
      let sz := x &&& 7
      let accept := acceptRanges (x >>> 4)
      if s.length < sz then (RuneError, 1)
      else
        match t with
        | [] => (RuneError, 1)
        | c1 :: t1 =>
          if c1.val < accept.1 ∨ accept.2 < c1.val then (RuneError, 1)
          else if sz ≤ 2 then
            (((c0.val &&& mask2) <<< 6) ||| (c1.val &&& maskx), 2)
          else
            match t1 with
            | [] => (RuneError, 1)
            | c2 :: t2 =>
              if c2.val < locb ∨ hicb < c2.val then (RuneError, 1)
              else if sz ≤ 3 then
                (((c0.val &&& mask3) <<< 12) ||| ((c1.val &&& maskx) <<< 6)
                  ||| (c2.val &&& maskx), 3)
              else
                match t2 with
                | [] => (RuneError, 1)
                | c3 :: _ =>
                  if c3.val < locb ∨ hicb < c3.val then (RuneError, 1)
                  else
                    (((c0.val &&& mask4) <<< 18) ||| ((c1.val &&& maskx) <<< 12)
                      ||| ((c2.val &&& maskx) <<< 6) ||| (c3.val &&& maskx), 4)

/-- Go `utf8.RuneStart`: `b` is not a continuation byte. -/
def RuneStart (b : Byte) : Bool := b.val &&& 0xC0 != 0x80

/-- The backward scan of `DecodeLastRuneInString`,
`for ...; start >= lim; start-- { if RuneStart(s[start]) { break } }`:
the value of `start` when the loop is left (`-1` when it runs below zero). -/
def scanStart (s : GoString) (lim : Nat) : Nat → Int
  | 0 =>
    if 0 < lim then 0
    else if (s.get? 0).any RuneStart then 0
    else -1
  | start + 1 =>
    if start + 1 < lim then ((start + 1 : Nat) : Int)
    else if (s.get? (start + 1)).any RuneStart then ((start + 1 : Nat) : Int)
    else scanStart s lim start

/-- Go `utf8.DecodeLastRuneInString`: the last rune of `s` and its width. -/
def DecodeLastRuneInString (s : GoString) : Nat × Nat :=
  let len := s.length
  if len = 0 then (RuneError, 0)
  else
    let r := ((s.get? (len - 1)).map (fun b => b.val)).getD 0
    if r < RuneSelf then (r, 1)
    else
      -- `lim := end - UTFMax; if lim < 0 { lim = 0 }`
      let lim := len - UTFMax
      -- the loop starts at `end - 2`; `if start < 0 { start = 0 }` follows it
      let start : Nat := if len = 1 then 0 else (scanStart s lim (len - 2)).toNat
      let (r, size) := DecodeRuneInString (s.drop start)
      if start + size ≠ len then (RuneError, 1) else (r, size)

/-- The loop of `utf8.RuneCountInString`; `fuel` bounds the number of runes. -/
def runeCountLoop : Nat → GoString → Nat
  | 0, _ => 0
  | fuel + 1, s =>
    match s with
    | [] => 0
    | _ :: _ => 1 + runeCountLoop fuel (s.drop (DecodeRuneInString s).2)

/-- Go `utf8.RuneCountInString`: the number of runes of `s`, a byte that is not
part of a valid encoding counting for one. -/
def RuneCountInString (s : GoString) : Nat := runeCountLoop s.length s

end utf8

/-- Go `unicode.IsSpace`: the Unicode `White_Space` property. -/
def unicode.IsSpace (r : Nat) : Bool :=
  if r ≤ 0xFF then
    r = 0x09 ∨ r = 0x0A ∨ r = 0x0B ∨ r = 0x0C ∨ r = 0x0D ∨ r = 0x20 ∨ r = 0x85 ∨ r = 0xA0
  else
    r = 0x1680 ∨ (0x2000 ≤ r ∧ r ≤ 0x200A) ∨ r = 0x2028 ∨ r = 0x2029 ∨ r = 0x202F
      ∨ r = 0x205F ∨ r = 0x3000

namespace strings

/-- The loop of `indexFunc(s, f, false)` inside `TrimLeftFunc`: the suffix of `s`
beginning at its first rune that does not satisfy `f` (empty when there is
none). `fuel` bounds the number of runes read. -/
def trimLeftLoop (f : Nat → Bool) : Nat → GoString → GoString
  | 0, s => s
  | fuel + 1, s =>
    match s with
    | [] => []
    | _ :: _ =>
      let (r, size) := utf8.DecodeRuneInString s
      if f r then trimLeftLoop f fuel (s.drop size) else s

/-- Go `strings.TrimLeftFunc`. -/
def TrimLeftFunc (s : GoString) (f : Nat → Bool) : GoString :=
  trimLeftLoop f s.length s

/-- The loop of `lastIndexFunc(s, f, false)`: the index at which the last rune
of `s[0:i]` that does not satisfy `f` begins, or `none` for `-1`. -/
def lastIndexLoop (s : GoString) (f : Nat → Bool) : Nat → Nat → Option Nat
  | 0, _ => none
  | fuel + 1, i =>
    if i = 0 then none
    else
      let (r, size) := utf8.DecodeLastRuneInString (s.take i)
      if f r then lastIndexLoop s f fuel (i - size) else some (i - size)

/-- Go `strings.TrimRightFunc`. -/
def TrimRightFunc (s : GoString) (f : Nat → Bool) : GoString :=
  match lastIndexLoop s f s.length s.length with
  | none => []
  | some i =>
    if ((s.get? i).map (fun b => b.val)).getD 0 ≥ utf8.RuneSelf then
      s.take (i + (utf8.DecodeRuneInString (s.drop i)).2)
    else
      s.take (i + 1)

/-- Go `strings.TrimFunc`. -/
def TrimFunc (s : GoString) (f : Nat → Bool) : GoString :=
  TrimRightFunc (TrimLeftFunc s f) f

/-- Go `strings.TrimSpace`: `s` without leading and trailing white space, as
defined by Unicode (`TrimFunc(s, unicode.IsSpace)`; the ASCII fast path of the
library returns the same slice). -/
def TrimSpace (s : GoString) : GoString := TrimFunc s unicode.IsSpace

/-- Go `strings.Contains`: `substr` occurs within `s`. -/
def Contains : GoString → GoString → Bool
  | [], substr => substr.isEmpty
  | c :: s, substr => substr.isPrefixOf (c :: s) || Contains s substr

end strings

/-- Go `strings.Cut`: `s` around the first instance of `sep`
(`before, after, found`); `(s, "", false)` when `sep` does not occur. -/
def strings.Cut : GoString → GoString → GoString × GoString × Bool
  | [], sep => ([], [], sep.isEmpty)
  | c :: s, sep =>
    if sep.isPrefixOf (c :: s) then ([], (c :: s).drop sep.length, true)
    else
      let r := strings.Cut s sep
      (c :: r.1, r.2.1, r.2.2)

/-- The general loop of `strings.Count`: the instances of `substr` found one
after the other, each search starting after the instance before. -/
def strings.countLoop (substr : GoString) : Nat → GoString → Nat
  | 0, _ => 0
  | fuel + 1, s =>
    match strings.Cut s substr with
    | (_, after, true) => 1 + strings.countLoop substr fuel after
    | (_, _, false) => 0

/-- Go `strings.Count`: the number of non-overlapping instances of `substr` in
`s`; the number of runes of `s` plus one for an empty `substr`, and the number of
bytes equal to it for a `substr` of one byte. -/
def strings.Count (s substr : GoString) : Nat :=
  match substr with
  | [] => utf8.RuneCountInString s + 1
  | [c] => s.count c
  | _ => strings.countLoop substr s.length s

/-! ## Go `strconv` -/

/-- The decimal digits of `n` written in front of `acc`, most significant
first; `fuel` bounds the number of digits. -/
def strconv.formatDigits : Nat → Nat → GoString → GoString
  | 0, _, acc => acc
  | fuel + 1, n, acc =>
    let acc := Fin.ofNat (48 + n % 10) :: acc
    if n / 10 = 0 then acc else strconv.formatDigits fuel (n / 10) acc

/-- Go `strconv.FormatInt(i, 10)`: the decimal representation of `i`. -/
def strconv.FormatInt (i : Int) : GoString :=
  if i < 0 then str "-" ++ strconv.formatDigits (i.natAbs + 1) i.natAbs []
  else strconv.formatDigits (i.natAbs + 1) i.natAbs []

/-! ## Go `net/url`: query strings

`ParseQuery`, `QueryEscape`, `QueryUnescape` and `Values` as the standard library
defines them: `ParseQuery` separates the pairs at `&`, refuses a pair that holds
a `;`, and refuses a query of more than 10000 pairs (the default of the setting
`urlmaxqueryparams`), which it leaves unparsed. Bytes are written
by their codes: 32 is the space, 37 `%`, 38 `&`, 43 `+`, 45 `-`, 46 `.`, 59 `;`,
61 `=`, 95 `_`, 126 `~`; 48 to 57 are the digits, 65 to 90 and 97 to 122 the
letters. -/

namespace url

/-- The errors of `ParseQuery`: an `EscapeError` holding the malformed escape,
the error for a `;` in a pair, or the error for a query of too many pairs. -/
inductive Error where
  | EscapeError (s : GoString)
  | InvalidSemicolon
  | TooManyParams
deriving DecidableEq

/-- Go `ishex`. -/
def ishex (c : Byte) : Bool :=
  (48 ≤ c.val ∧ c.val ≤ 57) ∨ (97 ≤ c.val ∧ c.val ≤ 102) ∨ (65 ≤ c.val ∧ c.val ≤ 70)

/-- Go `unhex`. -/
def unhex (c : Byte) : Nat :=
  if 48 ≤ c.val ∧ c.val ≤ 57 then c.val - 48
  else if 97 ≤ c.val ∧ c.val ≤ 102 then c.val - 97 + 10
  else if 65 ≤ c.val ∧ c.val ≤ 70 then c.val - 65 + 10
  else 0

/-- The constant `upperhex`, indexed. -/
def upperhex (i : Nat) : Byte :=
  ((str "0123456789ABCDEF").get? i).getD 0

/-- Go `shouldEscape(c, encodeQueryComponent)`: every byte except the
unreserved characters (letters, digits, `-`, `_`, `.`, `~`) is escaped. -/
def shouldEscape (c : Byte) : Bool :=
  if (97 ≤ c.val ∧ c.val ≤ 122) ∨ (65 ≤ c.val ∧ c.val ≤ 90) ∨ (48 ≤ c.val ∧ c.val ≤ 57) then
    false
  else if c.val = 45 ∨ c.val = 95 ∨ c.val = 46 ∨ c.val = 126 then false
  else true

/-- What `escape(s, encodeQueryComponent)` writes for one byte of `s`. -/
def escapeByte (c : Byte) : GoString :=
  if c.val = 32 then [43]
  else if shouldEscape c then [37, upperhex (c.val >>> 4), upperhex (c.val &&& 15)]
  else [c]

/-- Go `url.QueryEscape`. -/
def QueryEscape (s : GoString) : GoString := s.flatMap escapeByte

/-- The first pass of `unescape(s, encodeQueryComponent)`: the malformed escape
at which it stops, if any. -/
def checkEscapes : GoString → Option GoString
  | [] => none
  | c :: s =>
    if c.val = 37 then
      match s with
      | h1 :: h2 :: s2 =>
        if ishex h1 ∧ ishex h2 then checkEscapes s2 else some [c, h1, h2]
      | _ => some (c :: s)
    else checkEscapes s

/-- The second pass of `unescape(s, encodeQueryComponent)` on a string whose
escapes are well formed. -/
def decodeEscapes : GoString → GoString
  | [] => []
  | c :: s =>
    if c.val = 37 then
      match s with
      | h1 :: h2 :: s2 => Fin.ofNat ((unhex h1 <<< 4) ||| unhex h2) :: decodeEscapes s2
      | _ => []
    else if c.val = 43 then 32 :: decodeEscapes s
    else c :: decodeEscapes s

/-- Go `url.QueryUnescape`. -/
def QueryUnescape (s : GoString) : Except Error GoString :=
  match checkEscapes s with
  | some bad => .error (Error.EscapeError bad)
  | none => .ok (decodeEscapes s)

/-- Type `url.Values`, a `map[string][]string`: the entries of the map, one for
each key present. -/
abbrev Values := List (GoString × List GoString)

/-- The map index expression `v[key]`, nil for a key that is absent. -/
def Values.index (v : Values) (key : GoString) : List GoString :=
  (v.lookup key).getD []

/-- The map assignment `v[key] = vs`. -/
def Values.assign : Values → GoString → List GoString → Values
  | [], key, vs => [(key, vs)]
  | e :: v, key, vs => if e.1 = key then (key, vs) :: v else e :: Values.assign v key vs

/-- Method `Values.Set`: `v[key] = []string{value}`. -/
def Values.Set (v : Values) (key value : GoString) : Values :=
  v.assign key [value]

/-- The inner loop of `Values.Encode`: the values of one key written to `buf`. -/
def encodeValues (keyEscaped : GoString) (buf : GoString) (vs : List GoString) : GoString :=
  vs.foldl (fun buf value =>
    (if buf.length > 0 then buf ++ [38] else buf) ++ keyEscaped ++ [61] ++ QueryEscape value) buf

/-- Method `Values.Encode`: the pairs in `key=value` form joined by `&`, the
keys in the order of `sort.Strings`. -/
def Values.Encode (v : Values) : GoString :=
  let keys := (v.map Prod.fst).insertionSort (fun a b => a ≤ b)
  keys.foldl (fun buf k => encodeValues (QueryEscape k) buf (v.index k)) []

/-- The loop of `parseQuery`, one pair at each turn; `fuel` bounds the number
of turns. -/
def parseQueryLoop : Nat → Values → Option Error → GoString → Values × Option Error
  | 0, m, err, _ => (m, err)
  | fuel + 1, m, err, query =>
    if query = [] then (m, err)
    else
      let (key, query, _) := strings.Cut query [38]
      if strings.Contains key [59] then
        parseQueryLoop fuel m (some Error.InvalidSemicolon) query
      else if key = [] then parseQueryLoop fuel m err query
      else
        let (key, value, _) := strings.Cut key [61]
        match QueryUnescape key with
        | .error err1 => parseQueryLoop fuel m (if err = none then some err1 else err) query
        | .ok key =>
          match QueryUnescape value with
          | .error err1 => parseQueryLoop fuel m (if err = none then some err1 else err) query
          | .ok value => parseQueryLoop fuel (m.assign key (m.index key ++ [value])) err query

/-- The constant `defaultMaxParams`. -/
def defaultMaxParams : Nat := 10000

/-- Go `urlParamsWithinMax`, the setting `urlmaxqueryparams` being unset: the
number of pairs is at most `defaultMaxParams`. -/
def urlParamsWithinMax (params : Nat) : Bool := params ≤ defaultMaxParams

/-- Go `parseQuery(m, query)`: the map and the error it leaves. A query of too
many pairs (one more than it has `&`) is refused and `m` left as it is;
otherwise the loop runs. Every turn of the loop removes at least one byte of the
query, so `query.length` turns exhaust it. -/
def parseQuery (m : Values) (query : GoString) : Values × Option Error :=
  if !urlParamsWithinMax (strings.Count query [38] + 1) then (m, some Error.TooManyParams)
  else parseQueryLoop query.length m none query

/-- Go `url.ParseQuery`: `parseQuery` on a new map; the values parsed (those of
the well-formed pairs) and the first error met. -/
def ParseQuery (query : GoString) : Values × Option Error :=
  parseQuery [] query

/-- One pair as `Encode` writes it: `key=value`, both escaped. -/
def encodePair (p : GoString × GoString) : GoString :=
  QueryEscape p.1 ++ [61] ++ QueryEscape p.2

/-- Written pairs joined by `&`. -/
def joinPairs : List (GoString × GoString) → GoString
  | [] => []
  | [p] => encodePair p
  | p :: q :: ps => encodePair p ++ 38 :: joinPairs (q :: ps)

/-- The pairs of `v` in the order in which `Encode` writes them. -/
def Values.pairs (v : Values) : List (GoString × GoString) :=
  ((v.map Prod.fst).insertionSort (fun a b => a ≤ b)).flatMap
    (fun k => (v.index k).map (fun x => (k, x)))

/-- The update of `parseQuery` for one pair: `m[key] = append(m[key], value)`. -/
def Values.add (m : Values) (p : GoString × GoString) : Values :=
  m.assign p.1 (m.index p.1 ++ [p.2])

/-- The step of `Encode` for one pair: a `&` when the buffer is not empty, then
the pair. -/
def writePair (buf : GoString) (p : GoString × GoString) : GoString :=
  (if buf.length > 0 then buf ++ [38] else buf) ++ encodePair p

/-- The number of values a map holds, over all its keys. -/
def Values.size (v : Values) : Nat := (v.map (fun e => e.2.length)).sum

/-- The maps `ParseQuery` builds: every key once, no key with an empty list of
values. -/
def Values.WF (v : Values) : Prop :=
  (v.map Prod.fst).Nodup ∧ ∀ e ∈ v, e.2 ≠ []

end url

/-- Go `fmt.Sprintf("%s/%s", a, b)`. -/
def sprintfPath2 (a b : GoString) : GoString := a ++ str "/" ++ b

/-- Go `fmt.Sprintf("%s/%s/%s", a, b, c)`. -/
def sprintfPath3 (a b c : GoString) : GoString := a ++ str "/" ++ b ++ str "/" ++ c

/-! ## The key/value store (`github.com/docker/libkv`) -/

/-- Type `store.WriteOptions`; the zero value of a field is its default. -/
structure WriteOptions where
  IsDir : Bool := false
  TTL : Int := 0
deriving DecidableEq

/-- Type `store.KVPair`. -/
structure KVPair where
  Key : GoString
  Value : GoString
  LastIndex : Nat
deriving DecidableEq

/-- The store library as the plugin uses it. `Store` is the state behind a
`store.Store` handle and `Config` is `store.Config`; each call returns its Go
results and the state the store is left in. Nothing is assumed of the functions:
a `Put` or `Get` may fail or succeed on any state. -/
structure Libkv where
  Store : Type
  Config : Type
  NewStore : List GoString → Option Config → Except GoError Store
  Put : Store → GoString → GoString → WriteOptions → Option GoError × Store
  Get : Store → GoString → Except GoError KVPair × Store
  Close : Store → Store

/-- One call made to the store library, with what it returned. -/
inductive Call (lib : Libkv) where
  | EtcdRegister
  | NewStore (addrs : List GoString) (options : Option lib.Config) (err : Option GoError)
  | Put (key : GoString) (value : GoString) (opts : WriteOptions) (err : Option GoError)
  | Get (key : GoString) (res : Except GoError KVPair)
  | Close

/-- Severity of a line written through `rpcx/log`. -/
inductive Level where
  | Error
  | Info
deriving DecidableEq

/-! ## The metrics registry (`github.com/rcrowley/go-metrics`) -/

/-- Modelled from the spec: a counter of the Metrics Source (a `Meter` of
go-metrics, a library outside the repository). The count is held as the library
holds it, an `int64` (etcd.go passes `Count()/60` to `strconv.FormatInt`), and a
meter that was stopped no longer counts. -/
structure Meter where
  count : Int
  stopped : Bool
deriving DecidableEq

/-- Method `Mark(n)` of a meter: nothing on a stopped meter, otherwise the
`int64` sum of the count and `n`. -/
def Meter.Mark (m : Meter) (n : Int) : Meter :=
  if m.stopped then m else { m with count := wrapInt64 (m.count + n) }

/-- Modelled from the spec: the Metrics Source, a library outside the
repository: a registry holds meters keyed by name (`getOrCreateCounter(name)`,
`Counter.mark(n)`, `Counter.count()`). -/
abbrev Registry := List (GoString × Meter)

/-- Method `Count()` of the meter registered under `name`. -/
def Registry.Count (r : Registry) (name : GoString) : Int :=
  ((r.lookup name).map Meter.count).getD 0

/-- The meter registered under `name` was stopped. -/
def Registry.Stopped (r : Registry) (name : GoString) : Bool :=
  ((r.lookup name).map Meter.stopped).getD false

/-- The registry after `GetOrRegisterMeter(name, r)`: a meter absent from the
registry is registered, running, with count zero. -/
def Registry.GetOrRegisterMeter (r : Registry) (name : GoString) : Registry :=
  match r.lookup name with
  | some _ => r
  | none => r ++ [(name, ⟨0, false⟩)]

/-- The registry after `Mark(n)` on the meter registered under `name`. -/
def Registry.Mark (r : Registry) (name : GoString) (n : Int) : Registry :=
  r.map (fun e => if e.1 = name then (e.1, e.2.Mark n) else e)

/-! ## The plugin -/

/-- Type `EtcdRegisterPlugin`. `KV` holds the state of the store behind the
handle, `none` for a nil handle; `Metrics` likewise for the registry;
`UpdateInterval` is a `time.Duration`, the `int64` number of nanoseconds. -/
structure EtcdRegisterPlugin (lib : Libkv) where
  /-- Service address, for example `tcp@127.0.0.1:8972`. -/
  ServiceAddress : GoString
  /-- Addresses of the etcd servers. -/
  EtcdServers : List GoString
  /-- Base path of the rpcx server, for example `com/example/rpcx`. -/
  BasePath : GoString
  Metrics : Option Registry
  /-- Registered services. -/
  Services : List GoString
  UpdateInterval : Int
  Options : Option lib.Config
  KV : Option lib.Store

/-- Everything a method of the plugin reads or writes: the receiver `p`, the
global `metrics.DefaultRegistry`, the calls made to the store library so far,
the lines logged so far, and the periods of the tickers whose refresh loop is
running. -/
structure World (lib : Libkv) where
  p : EtcdRegisterPlugin lib
  DefaultRegistry : Registry
  calls : List (Call lib)
  logs : List (Level × GoString)
  tickers : List Int

namespace World

variable {lib : Libkv}

/-- A call to `log.Errorf` with the formatted line. -/
def logError (w : World lib) (line : GoString) : World lib :=
  { w with logs := w.logs ++ [(Level.Error, line)] }

/-- A call to `log.Infof` with the formatted line. -/
def logInfo (w : World lib) (line : GoString) : World lib :=
  { w with logs := w.logs ++ [(Level.Info, line)] }

/-- A call to `etcd.Register()`. -/
def etcdRegister (w : World lib) : World lib :=
  { w with calls := w.calls ++ [Call.EtcdRegister] }

/-- A call to `libkv.NewStore(store.ETCD, p.EtcdServers, options)`. -/
def newStore (w : World lib) (options : Option lib.Config) :
    Except GoError lib.Store × World lib :=
  match lib.NewStore w.p.EtcdServers options with
  | .error e =>
    (.error e, { w with calls := w.calls ++ [Call.NewStore w.p.EtcdServers options (some e)] })
  | .ok kv =>
    (.ok kv, { w with calls := w.calls ++ [Call.NewStore w.p.EtcdServers options none] })

/-- The assignment `p.KV = kv`. -/
def setKV (w : World lib) (kv : lib.Store) : World lib :=
  { w with p := { w.p with KV := some kv } }

/-- The assignment `p.Metrics = r`. -/
def setMetrics (w : World lib) (r : Option Registry) : World lib :=
  { w with p := { w.p with Metrics := r } }

/-- A call to `p.KV.Put(key, value, opts)`, `kv` being the state behind the
handle `p.KV`: the error returned, the state the store is left in, and the
world in which the handle has that state. -/
def put (w : World lib) (kv : lib.Store) (key value : GoString) (opts : WriteOptions) :
    Option GoError × lib.Store × World lib :=
  let r := lib.Put kv key value opts
  (r.1, r.2, { w with p := { w.p with KV := some r.2 }
                      calls := w.calls ++ [Call.Put key value opts r.1] })

/-- A call to `p.KV.Get(key)`, `kv` being the state behind the handle `p.KV`. -/
def get (w : World lib) (kv : lib.Store) (key : GoString) :
    Except GoError KVPair × lib.Store × World lib :=
  let r := lib.Get kv key
  (r.1, r.2, { w with p := { w.p with KV := some r.2 }
                      calls := w.calls ++ [Call.Get key r.1] })

end World

/-- The verb `%v` of `fmt` applied to an error. -/
def fmtError (err : Option GoError) : GoString :=
  match err with
  | none => str "<nil>"
  | some e => e.Error

/-- The test `err != nil && !strings.Contains(err.Error(), "Not a file")` that
follows each directory write. -/
def dirWriteFailed (err : Option GoError) : Bool :=
  match err with
  | none => false
  | some e => !strings.Contains e.Error (str "Not a file")

/-- The options of the directory writes: `&store.WriteOptions{IsDir: true}`. -/
def dirOptions : WriteOptions := { IsDir := true }

/-- The options of the leaf writes of `Register` and of the refresh loop:
`&store.WriteOptions{TTL: p.UpdateInterval * 2}`, an `int64` product. -/
def leafOptions (updateInterval : Int) : WriteOptions :=
  { TTL := wrapInt64 (updateInterval * 2) }

/-- The line `log.Errorf("cannot create etcd path %s: %v", path, err)`. -/
def cannotCreatePath (path : GoString) (err : Option GoError) : GoString :=
  str "cannot create etcd path " ++ path ++ str ": " ++ fmtError err

/-- The line `log.Errorf("cannot create etcd registry: %v", err)`. -/
def cannotCreateRegistry (err : Option GoError) : GoString :=
  str "cannot create etcd registry: " ++ fmtError err

/-- Method `Register` from its first `Put` to its end (the three writes and the
append), `kv` being the state behind the handle `p.KV`, which is not nil there. -/
def registerWrites {lib : Libkv} (w : World lib) (kv : lib.Store) (name : GoString) :
    Option GoError × World lib :=
  let (err, kv, w) := w.put kv w.p.BasePath (str "rpcx_path") dirOptions
  if dirWriteFailed err then
    (err, w.logError (cannotCreatePath w.p.BasePath err))
  else
    let nodePath := sprintfPath2 w.p.BasePath name
    let (err, kv, w) := w.put kv nodePath name dirOptions
    if dirWriteFailed err then
      (err, w.logError (cannotCreatePath nodePath err))
    else
      let nodePath := sprintfPath3 w.p.BasePath name w.p.ServiceAddress
      let (err, _, w) := w.put kv nodePath w.p.ServiceAddress (leafOptions w.p.UpdateInterval)
      if err ≠ none then
        (err, w.logError (cannotCreatePath nodePath err))
      else
        (err, { w with p := { w.p with Services := w.p.Services ++ [name] } })

/-- Method `EtcdRegisterPlugin.Register`: the error returned and the world
after the call. `_rcvr` and `_metadata` are the arguments `rcvr` and `metadata`,
which it does not use. -/
def Register {lib : Libkv} {ρ : Type} (w : World lib) (name : GoString) (_rcvr : ρ)
    (_metadata : GoString) : Option GoError × World lib :=
  if strings.TrimSpace name = [] then
    (some (errors.New (str "Register service \x60name\x60 can\x27t be empty")), w)
  else
    match w.p.KV with
    | none =>
      let w := w.etcdRegister
      match w.newStore none with
      | (.error err, w) => (some err, w.logError (cannotCreateRegistry (some err)))
      | (.ok kv, w) => registerWrites (w.setKV kv) kv name
    | some kv => registerWrites w kv name

/-- Method `EtcdRegisterPlugin.Start` up to its `return`: the error returned and
the world after the call. When `UpdateInterval > 0` a ticker of that period is
created and the refresh loop (`refreshTick` at every tick) is left running. -/
def Start {lib : Libkv} (w : World lib) : Option GoError × World lib :=
  let connected : Except GoError lib.Store × World lib :=
    match w.p.KV with
    | none =>
      match w.newStore w.p.Options with
      | (.error err, w) => (.error err, w.logError (cannotCreateRegistry (some err)))
      | (.ok kv, w) => (.ok kv, w.setKV kv)
    | some kv => (.ok kv, w)
  match connected with
  | (.error err, w) => (some err, w)
  | (.ok kv, w) =>
    let (err, _, w) := w.put kv w.p.BasePath (str "rpcx_path") dirOptions
    if dirWriteFailed err then
      (err, w.logError (cannotCreatePath w.p.BasePath err))
    else if w.p.UpdateInterval > 0 then
      (none, { w with tickers := w.tickers ++ [w.p.UpdateInterval] })
    else
      (none, w)

/-- The body of the inner loop of the refresh goroutine for one `name` of
`p.Services`, `data` being the bytes of the rate: `none` when the handle `p.KV`
is nil (the call on it panics). The error of the `Put` is discarded. -/
def refreshService {lib : Libkv} (data : GoString) (w : World lib) (name : GoString) :
    Option (World lib) :=
  match w.p.KV with
  | none => none
  | some kv =>
    let nodePath := sprintfPath3 w.p.BasePath name w.p.ServiceAddress
    match w.get kv nodePath with
    | (.error err, _, w) =>
      some (w.logInfo (str "can\x27t get data of node: " ++ nodePath ++ str ", because of "
        ++ err.Error))
    | (.ok kvPair, kv, w) =>
      let v := (url.ParseQuery kvPair.Value).1
      let v := v.Set (str "tps") data
      let (_, _, w) := w.put kv nodePath v.Encode (leafOptions w.p.UpdateInterval)
      some w

/-- The registry `metrics.GetOrRegisterMeter(name, p.Metrics)` works on:
`p.Metrics`, or `metrics.DefaultRegistry` when that is nil. -/
def World.registry {lib : Libkv} (w : World lib) : Registry :=
  match w.p.Metrics with
  | some r => r
  | none => w.DefaultRegistry

/-- The world after `metrics.GetOrRegisterMeter(name, p.Metrics)`. -/
def World.getOrRegisterMeter {lib : Libkv} (w : World lib) (name : GoString) : World lib :=
  match w.p.Metrics with
  | some r => { w with p := { w.p with Metrics := some (r.GetOrRegisterMeter name) } }
  | none => { w with DefaultRegistry := w.DefaultRegistry.GetOrRegisterMeter name }

/-- One turn of `for range ticker.C` in the goroutine of `Start` (one refresh
tick): the world after it, `none` when it panics. The division is that of Go,
truncated. -/
def refreshTick {lib : Libkv} (w : World lib) : Option (World lib) :=
  let w := w.getOrRegisterMeter (str "clientMeter")
  let data := strconv.FormatInt ((w.registry.Count (str "clientMeter")).tdiv 60)
  w.p.Services.foldlM (refreshService data) w

/-- The refresh loop over `n` ticks. The channel of the ticker is never closed,
so the loop has no last turn and the deferred `p.KV.Close()` is never run. -/
def refreshLoop {lib : Libkv} : Nat → World lib → Option (World lib)
  | 0, w => some w
  | n + 1, w => (refreshTick w).bind (refreshLoop n)

/-- Method `EtcdRegisterPlugin.HandleConnAccept`: the pair returned and the
world after the call. -/
def HandleConnAccept {lib : Libkv} {γ : Type} (w : World lib) (conn : γ) :
    (γ × Bool) × World lib :=
  match w.p.Metrics with
  | some r =>
    let r := r.GetOrRegisterMeter (str "clientMeter")
    let r := r.Mark (str "clientMeter") 1
    ((conn, true), { w with p := { w.p with Metrics := some r } })
  | none => ((conn, true), w)

/-! ## Concrete stores and worlds -/

/-- Modelled from the spec: a store that is a key-to-value map: the entries,
one for each key present, each with the value and the options of the last `Put`
at its key. -/
abbrev MapStore := List (GoString × GoString × WriteOptions)

/-- The map after a `Put`: the entry at `key` is replaced. -/
def MapStore.put (m : MapStore) (key value : GoString) (opts : WriteOptions) : MapStore :=
  (key, value, opts) :: m.filter (fun e => e.1 ≠ key)

/-- Method `Get` over a map: the pair at `key`, or the error of an absent key. -/
def MapStore.get (m : MapStore) (key : GoString) : Except GoError KVPair × MapStore :=
  match m.lookup key with
  | some e => (.ok ⟨key, e.1, 0⟩, m)
  | none => (.error ⟨str "Key not found in store"⟩, m)

/-- Modelled from the spec: the store library over a map whose `Put` always
succeeds; `NewStore` connects to the empty map. -/
def mapLib : Libkv where
  Store := MapStore
  Config := Unit
  NewStore := fun _ _ => .ok []
  Put := fun m key value opts => (none, m.put key value opts)
  Get := MapStore.get
  Close := fun m => m

/-- Modelled from the spec: the store library over a map that reports the
"Not a file" condition, and writes nothing, when a directory is put at a path
that exists already. -/
def dirLib : Libkv where
  Store := MapStore
  Config := Unit
  NewStore := fun _ _ => .ok []
  Put := fun m key value opts =>
    if opts.IsDir ∧ (m.lookup key).isSome then
      (some ⟨str "102: Not a file (" ++ key ++ str ")"⟩, m)
    else (none, m.put key value opts)
  Get := MapStore.get
  Close := fun m => m

/-- Modelled from the spec: the store library over a map that accepts
directories and refuses every other `Put` with the "Not a file" condition. -/
def leafRefusingLib : Libkv where
  Store := MapStore
  Config := Unit
  NewStore := fun _ _ => .ok []
  Put := fun m key value opts =>
    if opts.IsDir then (none, m.put key value opts)
    else (some ⟨str "102: Not a file (" ++ key ++ str ")"⟩, m)
  Get := MapStore.get
  Close := fun m => m

/-- A plugin as a server configures it: one minute between refreshes, a
registry of its own, no store handle yet. -/
def examplePlugin (lib : Libkv) : EtcdRegisterPlugin lib where
  ServiceAddress := str "tcp@127.0.0.1:8972"
  EtcdServers := [str "127.0.0.1:2379"]
  BasePath := str "/rpcx_test"
  Metrics := some []
  Services := []
  UpdateInterval := 60000000000
  Options := none
  KV := none

/-- The world in which `examplePlugin` has just been built. -/
def exampleWorld (lib : Libkv) : World lib where
  p := examplePlugin lib
  DefaultRegistry := []
  calls := []
  logs := []
  tickers := []

/-- The world of `examplePlugin` holding a handle to the store `m`. -/
def connectedWorld (lib : Libkv) (m : lib.Store) : World lib :=
  (exampleWorld lib).setKV m

/-- A store in which the directories of `examplePlugin` for the service
`Arith` exist already. -/
def bootstrappedStore : MapStore :=
  [(str "/rpcx_test/Arith", str "Arith", dirOptions),
   (str "/rpcx_test", str "rpcx_path", dirOptions)]

/-- A world whose plugin has `UpdateInterval = 2^62` nanoseconds, a value of
`time.Duration`. -/
def longIntervalWorld : World mapLib :=
  { connectedWorld mapLib [] with
    p := { (connectedWorld mapLib []).p with UpdateInterval := 4611686018427387904 } }

/-- A world in which `Arith` and `Echo` are tracked and the store holds the
leaf of `Echo` only (that of `Arith` has expired or was deleted), the counter
`clientMeter` standing at 120. -/
def partialWorld : World mapLib :=
  { connectedWorld mapLib
      [(str "/rpcx_test/Echo/tcp@127.0.0.1:8972", str "tcp@127.0.0.1:8972",
        leafOptions 60000000000)] with
    p := { (connectedWorld mapLib
        [(str "/rpcx_test/Echo/tcp@127.0.0.1:8972", str "tcp@127.0.0.1:8972",
          leafOptions 60000000000)]).p with
      Services := [str "Arith", str "Echo"]
      Metrics := some [(str "clientMeter", ⟨120, false⟩)] } }

/-- A stored value of 10000 pairs, `a=&a=& ... &a=`: the most that `ParseQuery`
accepts. -/
def crowdedValue : GoString :=
  url.joinPairs (List.replicate 10000 (str "a", []))

/-- A world in which `Echo` is tracked and its leaf holds `crowdedValue`, the
counter `clientMeter` standing at 120. -/
def crowdedWorld : World mapLib :=
  { connectedWorld mapLib
      [(str "/rpcx_test/Echo/tcp@127.0.0.1:8972", crowdedValue, leafOptions 60000000000)] with
    p := { (connectedWorld mapLib
        [(str "/rpcx_test/Echo/tcp@127.0.0.1:8972", crowdedValue,
          leafOptions 60000000000)]).p with
      Services := [str "Echo"]
      Metrics := some [(str "clientMeter", ⟨120, false⟩)] } }

/-! ## Vocabulary of the statements -/

section Vocabulary

variable {lib : Libkv}

/-- The worlds in which `Register` reaches its first `Put`: `kv` is the state
behind the handle it writes through and `w0` the world at that point (the
handle was there, or `NewStore` has just returned it). -/
def reachesWrites (w : World lib) (kv : lib.Store) (w0 : World lib) : Prop :=
  (w.p.KV = some kv ∧ w0 = w) ∨
  (w.p.KV = none ∧ lib.NewStore w.p.EtcdServers none = .ok kv ∧
    w0 = { w with p := { w.p with KV := some kv }
                  calls := w.calls ++ [Call.EtcdRegister,
                    Call.NewStore w.p.EtcdServers none none] })

/-- What the store answers to the first write of `Register`, the `Put` at
`BasePath`, from the state `kv`. -/
def basePut (w : World lib) (kv : lib.Store) : Option GoError × lib.Store :=
  lib.Put kv w.p.BasePath (str "rpcx_path") dirOptions

/-- What the store answers to the second write, the `Put` at `BasePath/name`. -/
def namePut (w : World lib) (kv : lib.Store) (name : GoString) : Option GoError × lib.Store :=
  lib.Put (basePut w kv).2 (sprintfPath2 w.p.BasePath name) name dirOptions

/-- What the store answers to the third write, the `Put` of the leaf at
`BasePath/name/ServiceAddress`. -/
def leafPut (w : World lib) (kv : lib.Store) (name : GoString) : Option GoError × lib.Store :=
  lib.Put (namePut w kv name).2 (sprintfPath3 w.p.BasePath name w.p.ServiceAddress)
    w.p.ServiceAddress (leafOptions w.p.UpdateInterval)

/-- The first write as recorded in the history. -/
def baseCall (w : World lib) (kv : lib.Store) : Call lib :=
  Call.Put w.p.BasePath (str "rpcx_path") dirOptions (basePut w kv).1

/-- The second write as recorded in the history. -/
def nameCall (w : World lib) (kv : lib.Store) (name : GoString) : Call lib :=
  Call.Put (sprintfPath2 w.p.BasePath name) name dirOptions (namePut w kv name).1

/-- The leaf write as recorded in the history. -/
def leafCall (w : World lib) (kv : lib.Store) (name : GoString) : Call lib :=
  Call.Put (sprintfPath3 w.p.BasePath name w.p.ServiceAddress) w.p.ServiceAddress
    (leafOptions w.p.UpdateInterval) (leafPut w kv name).1

/-- An error a directory write surfaces: not nil, and its message does not
contain "Not a file". -/
def surfaces (err : Option GoError) : Prop :=
  ∃ e, err = some e ∧ strings.Contains e.Error (str "Not a file") = false

/-- The value the refresh loop writes back over the stored value `s` when the
rate is `data`: `s` parsed as a query string, `tps` set, encoded again. -/
def rewritten (s data : GoString) : GoString :=
  ((url.ParseQuery s).1.Set (str "tps") data).Encode

/-- The calls one name of `Services` gives rise to in a refresh tick of a plugin
with the given `BasePath`, `ServiceAddress` and `UpdateInterval`: a `Get` of its
leaf that failed, alone; or a `Get` that returned a pair, followed by the `Put`
of the rewritten value at the same path (whatever that `Put` returned). -/
def refreshSegment (base addr : GoString) (u : Int) (data name : GoString)
    (seg : List (Call lib)) : Prop :=
  (∃ err, seg = [Call.Get (sprintfPath3 base name addr) (.error err)]) ∨
  (∃ kvPair err, seg =
    [Call.Get (sprintfPath3 base name addr) (.ok kvPair),
     Call.Put (sprintfPath3 base name addr) (rewritten kvPair.Value data) (leafOptions u) err])

/-- The fields of the world a refresh tick only reads. -/
def sameConfig (w w' : World lib) : Prop :=
  w'.p.Services = w.p.Services ∧ w'.p.BasePath = w.p.BasePath ∧
  w'.p.ServiceAddress = w.p.ServiceAddress ∧ w'.p.UpdateInterval = w.p.UpdateInterval ∧
  w'.p.EtcdServers = w.p.EtcdServers ∧ w'.tickers = w.tickers

/-- What a leaf write carries, `u` being `UpdateInterval`: no directory flag,
and a TTL that is the `int64` product `2 * u`; that is `2 * u` itself when the
product does not overflow, and no TTL when `u` is zero. -/
def leafTTL (u : Int) (opts : WriteOptions) : Prop :=
  opts.IsDir = false ∧ opts.TTL = wrapInt64 (2 * u) ∧
  (-2 ^ 62 ≤ u → u < 2 ^ 62 → opts.TTL = 2 * u) ∧ (u = 0 → opts.TTL = 0)

/-- The TTL a call to `Put` carries. -/
def Call.ttl : Call lib → Option Int
  | Call.Put _ _ opts _ => some opts.TTL
  | _ => none

/-- The key of a call to `Put` or `Get`, and whether it is a `Put`. -/
def Call.key : Call lib → Option (Bool × GoString)
  | Call.Put key _ _ _ => some (true, key)
  | Call.Get key _ => some (false, key)
  | _ => none

end Vocabulary

/-! # Theorems -/

section RegisterLemmas

variable {lib : Libkv}

theorem dirWriteFailed_iff (err : Option GoError) : dirWriteFailed err = true ↔ surfaces err := by
  cases err with
  | none => simp [dirWriteFailed, surfaces]
  | some e => simp [dirWriteFailed, surfaces]

theorem dirWriteFailed_false_iff (err : Option GoError) :
    dirWriteFailed err = false ↔ ¬ surfaces err := by
  rw [← dirWriteFailed_iff]; simp

theorem register_blank {ρ : Type} (w : World lib) (name : GoString) (rcvr : ρ)
    (metadata : GoString) (h : strings.TrimSpace name = []) :
    Register w name rcvr metadata =
      (some (errors.New (str "Register service \x60name\x60 can\x27t be empty")), w) := by
  simp [Register, h]

theorem register_eq_writes {ρ : Type} (w w0 : World lib) (kv : lib.Store) (name : GoString)
    (rcvr : ρ) (metadata : GoString) (h : strings.TrimSpace name ≠ [])
    (hr : reachesWrites w kv w0) :
    Register w name rcvr metadata = registerWrites w0 kv name := by
  rcases hr with ⟨hkv, rfl⟩ | ⟨hkv, hnew, rfl⟩
  · simp [Register, h, hkv]
  · simp [Register, h, hkv, World.newStore, World.etcdRegister, hnew, World.setKV]

theorem reachesWrites_fields (w w0 : World lib) (kv : lib.Store) (hr : reachesWrites w kv w0) :
    w0.p.Services = w.p.Services ∧ w0.p.BasePath = w.p.BasePath ∧
    w0.p.ServiceAddress = w.p.ServiceAddress ∧ w0.p.UpdateInterval = w.p.UpdateInterval ∧
    w0.p.Metrics = w.p.Metrics ∧ w0.p.KV = some kv ∧ w.calls <+: w0.calls := by
  rcases hr with ⟨hkv, rfl⟩ | ⟨hkv, hnew, rfl⟩
  · simp [hkv]
  · simp

theorem registerWrites_stop_base (w : World lib) (kv : lib.Store) (name : GoString)
    (h1 : dirWriteFailed (basePut w kv).1 = true) :
    (registerWrites w kv name).1 = (basePut w kv).1 ∧
    (registerWrites w kv name).2.calls = w.calls ++ [baseCall w kv] ∧
    (registerWrites w kv name).2.p.Services = w.p.Services ∧
    (registerWrites w kv name).2.p.KV = some (basePut w kv).2 := by
  simp only [basePut] at h1
  simp [registerWrites, World.put, h1, World.logError, baseCall, basePut]

theorem registerWrites_stop_name (w : World lib) (kv : lib.Store) (name : GoString)
    (h1 : dirWriteFailed (basePut w kv).1 = false)
    (h2 : dirWriteFailed (namePut w kv name).1 = true) :
    (registerWrites w kv name).1 = (namePut w kv name).1 ∧
    (registerWrites w kv name).2.calls = w.calls ++ [baseCall w kv, nameCall w kv name] ∧
    (registerWrites w kv name).2.p.Services = w.p.Services ∧
    (registerWrites w kv name).2.p.KV = some (namePut w kv name).2 := by
  simp only [basePut, namePut] at h1 h2
  simp [registerWrites, World.put, h1, h2, World.logError, baseCall, basePut, nameCall, namePut]

theorem registerWrites_stop_leaf (w : World lib) (kv : lib.Store) (name : GoString)
    (h1 : dirWriteFailed (basePut w kv).1 = false)
    (h2 : dirWriteFailed (namePut w kv name).1 = false)
    (h3 : (leafPut w kv name).1 ≠ none) :
    (registerWrites w kv name).1 = (leafPut w kv name).1 ∧
    (registerWrites w kv name).2.calls =
      w.calls ++ [baseCall w kv, nameCall w kv name, leafCall w kv name] ∧
    (registerWrites w kv name).2.p.Services = w.p.Services ∧
    (registerWrites w kv name).2.p.KV = some (leafPut w kv name).2 := by
  simp only [basePut, namePut, leafPut] at h1 h2 h3
  simp [registerWrites, World.put, h1, h2, h3, World.logError, baseCall, basePut, nameCall,
    namePut, leafCall, leafPut]

theorem registerWrites_done (w : World lib) (kv : lib.Store) (name : GoString)
    (h1 : dirWriteFailed (basePut w kv).1 = false)
    (h2 : dirWriteFailed (namePut w kv name).1 = false)
    (h3 : (leafPut w kv name).1 = none) :
    (registerWrites w kv name).1 = none ∧
    (registerWrites w kv name).2.calls =
      w.calls ++ [baseCall w kv, nameCall w kv name, leafCall w kv name] ∧
    (registerWrites w kv name).2.p.Services = w.p.Services ++ [name] ∧
    (registerWrites w kv name).2.p.KV = some (leafPut w kv name).2 := by
  simp only [basePut, namePut, leafPut] at h1 h2 h3
  simp [registerWrites, World.put, h1, h2, h3, baseCall, basePut, nameCall,
    namePut, leafCall, leafPut]

theorem register_nil_reaches {ρ : Type} (w : World lib) (name : GoString) (rcvr : ρ)
    (metadata : GoString) (h : strings.TrimSpace name ≠ [])
    (hnil : (Register w name rcvr metadata).1 = none) :
    ∃ kv w0, reachesWrites w kv w0 := by
  cases hkv : w.p.KV with
  | some kv => exact ⟨kv, w, Or.inl ⟨hkv, rfl⟩⟩
  | none =>
    cases hnew : lib.NewStore w.p.EtcdServers none with
    | error e =>
      simp [Register, h, hkv, World.newStore, World.etcdRegister, hnew] at hnil
    | ok kv => exact ⟨kv, _, Or.inr ⟨hkv, hnew, rfl⟩⟩

/-- The four ways `Register` ends once it has reached its writes. -/
theorem registerWrites_cases (w : World lib) (kv : lib.Store) (name : GoString) :
    (surfaces (basePut w kv).1 ∧
      (registerWrites w kv name).1 = (basePut w kv).1 ∧
      (registerWrites w kv name).2.calls = w.calls ++ [baseCall w kv] ∧
      (registerWrites w kv name).2.p.Services = w.p.Services) ∨
    (¬ surfaces (basePut w kv).1 ∧ surfaces (namePut w kv name).1 ∧
      (registerWrites w kv name).1 = (namePut w kv name).1 ∧
      (registerWrites w kv name).2.calls = w.calls ++ [baseCall w kv, nameCall w kv name] ∧
      (registerWrites w kv name).2.p.Services = w.p.Services) ∨
    (¬ surfaces (basePut w kv).1 ∧ ¬ surfaces (namePut w kv name).1 ∧
      (leafPut w kv name).1 ≠ none ∧
      (registerWrites w kv name).1 = (leafPut w kv name).1 ∧
      (registerWrites w kv name).2.calls =
        w.calls ++ [baseCall w kv, nameCall w kv name, leafCall w kv name] ∧
      (registerWrites w kv name).2.p.Services = w.p.Services) ∨
    (¬ surfaces (basePut w kv).1 ∧ ¬ surfaces (namePut w kv name).1 ∧
      (leafPut w kv name).1 = none ∧
      (registerWrites w kv name).1 = none ∧
      (registerWrites w kv name).2.calls =
        w.calls ++ [baseCall w kv, nameCall w kv name, leafCall w kv name] ∧
      (registerWrites w kv name).2.p.Services = w.p.Services ++ [name] ∧
      (registerWrites w kv name).2.p.KV = some (leafPut w kv name).2) := by
  cases h1 : dirWriteFailed (basePut w kv).1 with
  | true =>
    have h := registerWrites_stop_base w kv name h1
    exact Or.inl ⟨(dirWriteFailed_iff _).1 h1, h.1, h.2.1, h.2.2.1⟩
  | false =>
    have n1 := (dirWriteFailed_false_iff _).1 h1
    cases h2 : dirWriteFailed (namePut w kv name).1 with
    | true =>
      have h := registerWrites_stop_name w kv name h1 h2
      exact Or.inr (Or.inl ⟨n1, (dirWriteFailed_iff _).1 h2, h.1, h.2.1, h.2.2.1⟩)
    | false =>
      have n2 := (dirWriteFailed_false_iff _).1 h2
      by_cases h3 : (leafPut w kv name).1 = none
      · have h := registerWrites_done w kv name h1 h2 h3
        exact Or.inr (Or.inr (Or.inr ⟨n1, n2, h3, h.1, h.2.1, h.2.2.1, h.2.2.2⟩))
      · have h := registerWrites_stop_leaf w kv name h1 h2 h3
        exact Or.inr (Or.inr (Or.inl ⟨n1, n2, h3, h.1, h.2.1, h.2.2.1⟩))

theorem registerWrites_fields (w : World lib) (kv : lib.Store) (name : GoString) :
    (registerWrites w kv name).2.p.BasePath = w.p.BasePath ∧
    (registerWrites w kv name).2.p.ServiceAddress = w.p.ServiceAddress ∧
    (registerWrites w kv name).2.p.UpdateInterval = w.p.UpdateInterval ∧
    (registerWrites w kv name).2.p.Metrics = w.p.Metrics ∧
    (registerWrites w kv name).2.DefaultRegistry = w.DefaultRegistry ∧
    (registerWrites w kv name).2.tickers = w.tickers := by
  simp only [registerWrites, World.put, World.logError]
  split_ifs <;> simp

theorem mapLib_reaches (w : World mapLib) : ∃ kv w0, reachesWrites w kv w0 := by
  cases hkv : w.p.KV with
  | some kv => exact ⟨kv, w, Or.inl ⟨hkv, rfl⟩⟩
  | none => exact ⟨[], _, Or.inr ⟨hkv, rfl, rfl⟩⟩

/-- Over `mapLib` the three writes of `Register` succeed, and the store they
leave is the store they started from with the three entries put. -/
theorem mapLib_registerWrites (w : World mapLib) (kv : MapStore) (name : GoString) :
    (registerWrites w kv name).1 = none ∧
    (registerWrites w kv name).2.p.Services = w.p.Services ++ [name] ∧
    (registerWrites w kv name).2.p.KV = some
      (((MapStore.put kv w.p.BasePath (str "rpcx_path") dirOptions).put
        (sprintfPath2 w.p.BasePath name) name dirOptions).put
        (sprintfPath3 w.p.BasePath name w.p.ServiceAddress) w.p.ServiceAddress
        (leafOptions w.p.UpdateInterval)) := by
  have h := registerWrites_done w kv name rfl rfl rfl
  exact ⟨h.1, h.2.2.1, h.2.2.2⟩

end RegisterLemmas

section MapStoreLemmas

theorem MapStore.lookup_put (m : MapStore) (key value : GoString) (opts : WriteOptions) :
    (m.put key value opts).lookup key = some (value, opts) := by
  simp [MapStore.put, List.lookup]

theorem MapStore.entries_put (m : MapStore) (key value : GoString) (opts : WriteOptions) :
    (m.put key value opts).filter (fun e => e.1 = key) = [(key, value, opts)] := by
  simp [MapStore.put, List.filter_cons, List.filter_filter]

theorem MapStore.put_put_put (m : MapStore) (a b c va vb vc : GoString)
    (oa ob oc : WriteOptions) (hab : a ≠ b) (hac : a ≠ c) (hbc : b ≠ c) :
    ((((((m.put a va oa).put b vb ob).put c vc oc).put a va oa).put b vb ob).put c vc oc) =
      ((m.put a va oa).put b vb ob).put c vc oc := by
  simp [MapStore.put, List.filter_cons, List.filter_filter, hab, hac, hbc, Ne.symm hab,
    Ne.symm hac, Ne.symm hbc]
  apply List.filter_congr
  intro e _
  by_cases h1 : e.1 = a <;> by_cases h2 : e.1 = b <;> by_cases h3 : e.1 = c <;> simp [h1, h2, h3]

theorem str_slash : str "/" = [47] := by decide

theorem path2_ne (a b : GoString) : a ≠ sprintfPath2 a b := by
  intro h
  have := congrArg List.length h
  simp [sprintfPath2, str_slash] at this

theorem path3_ne (a b c : GoString) : a ≠ sprintfPath3 a b c := by
  intro h
  have := congrArg List.length h
  simp [sprintfPath3, str_slash] at this

theorem path23_ne (a b c : GoString) : sprintfPath2 a b ≠ sprintfPath3 a b c := by
  intro h
  have := congrArg List.length h
  simp [sprintfPath2, sprintfPath3, str_slash] at this

theorem dirLib_get_put (kv : dirLib.Store) (key value : GoString) (opts : WriteOptions)
    (h : (dirLib.Put kv key value opts).1 = none) :
    ∃ kvPair, (dirLib.Get (dirLib.Put kv key value opts).2 key).1 = .ok kvPair ∧
      kvPair.Value = value := by
  simp only [dirLib] at h ⊢
  split at h
  · simp at h
  · rename_i hc
    simp only [hc, if_false]
    refine ⟨⟨key, value, 0⟩, ?_, rfl⟩
    simp [MapStore.get, MapStore.lookup_put]

end MapStoreLemmas

section TickLemmas
variable {lib : Libkv}

theorem refreshService_spec (data : GoString) (w : World lib) (kv : lib.Store)
    (name : GoString) (hkv : w.p.KV = some kv) :
    ∃ w', refreshService data w name = some w' ∧ sameConfig w w' ∧
      w'.p.Metrics = w.p.Metrics ∧ w'.DefaultRegistry = w.DefaultRegistry ∧
      (∃ kv', w'.p.KV = some kv') ∧
      ((∃ err, (lib.Get kv (sprintfPath3 w.p.BasePath name w.p.ServiceAddress)).1 = .error err ∧
          w'.calls = w.calls ++
            [Call.Get (sprintfPath3 w.p.BasePath name w.p.ServiceAddress) (.error err)] ∧
          w'.logs = w.logs ++ [(Level.Info, str "can\x27t get data of node: " ++
            sprintfPath3 w.p.BasePath name w.p.ServiceAddress ++ str ", because of " ++
            err.Error)]) ∨
       (∃ kvPair, (lib.Get kv (sprintfPath3 w.p.BasePath name w.p.ServiceAddress)).1 = .ok kvPair ∧
          w'.calls = w.calls ++
            [Call.Get (sprintfPath3 w.p.BasePath name w.p.ServiceAddress) (.ok kvPair),
             Call.Put (sprintfPath3 w.p.BasePath name w.p.ServiceAddress)
               (rewritten kvPair.Value data) (leafOptions w.p.UpdateInterval)
               (lib.Put (lib.Get kv (sprintfPath3 w.p.BasePath name w.p.ServiceAddress)).2
                 (sprintfPath3 w.p.BasePath name w.p.ServiceAddress)
                 (rewritten kvPair.Value data) (leafOptions w.p.UpdateInterval)).1] ∧
          w'.logs = w.logs)) := by
  cases hg : (lib.Get kv (sprintfPath3 w.p.BasePath name w.p.ServiceAddress)) with
  | mk res kv1 =>
    cases res with
    | error err =>
      simp only [refreshService, hkv, World.get, hg]
      refine ⟨_, rfl, ?_⟩
      simp [sameConfig, World.logInfo]
    | ok kvPair =>
      simp only [refreshService, hkv, World.get, hg, World.put]
      refine ⟨_, rfl, ?_⟩
      simp [sameConfig, rewritten]

theorem refreshNames_spec (data : GoString) (names : List GoString) :
    ∀ (w : World lib) (kv : lib.Store), w.p.KV = some kv →
    ∃ w' segs, names.foldlM (refreshService data) w = some w' ∧ sameConfig w w' ∧
      w'.p.Metrics = w.p.Metrics ∧ w'.DefaultRegistry = w.DefaultRegistry ∧
      (∃ kv', w'.p.KV = some kv') ∧
      w'.calls = w.calls ++ segs.flatten ∧
      List.Forall₂ (refreshSegment w.p.BasePath w.p.ServiceAddress w.p.UpdateInterval data)
        names segs ∧
      ∃ infos, w'.logs = w.logs ++ infos ∧ ∀ l ∈ infos, l.1 = Level.Info := by
  induction names with
  | nil =>
    intro w kv hkv
    exact ⟨w, [], rfl, ⟨rfl, rfl, rfl, rfl, rfl, rfl⟩, rfl, rfl, ⟨kv, hkv⟩, by simp,
      List.Forall₂.nil, [], by simp, by simp⟩
  | cons name names ih =>
    intro w kv hkv
    obtain ⟨w1, h1, c1, m1, d1, ⟨kv1, hkv1⟩, hseg⟩ := refreshService_spec data w kv name hkv
    obtain ⟨w2, segs, h2, c2, m2, d2, k2, hc2, hf2, infos, hl2, hi2⟩ := ih w1 kv1 hkv1
    obtain ⟨cS, cB, cA, cU, cE, cT⟩ := c1
    obtain ⟨cS2, cB2, cA2, cU2, cE2, cT2⟩ := c2
    rw [cB, cA, cU] at hf2
    have hfold : (name :: names).foldlM (refreshService data) w = some w2 := by
      rw [List.foldlM_cons, h1]; exact h2
    have hcfg : sameConfig w w2 :=
      ⟨cS2.trans cS, cB2.trans cB, cA2.trans cA, cU2.trans cU, cE2.trans cE, cT2.trans cT⟩
    rcases hseg with ⟨err, -, hc1, hl1⟩ | ⟨kvPair, -, hc1, hl1⟩
    · refine ⟨w2, [Call.Get (sprintfPath3 w.p.BasePath name w.p.ServiceAddress) (.error err)]
          :: segs, hfold, hcfg, m2.trans m1, d2.trans d1, k2, ?_,
        List.Forall₂.cons (Or.inl ⟨err, rfl⟩) hf2,
        (Level.Info, str "can\x27t get data of node: " ++
            sprintfPath3 w.p.BasePath name w.p.ServiceAddress ++ str ", because of " ++
            err.Error) :: infos, ?_, ?_⟩
      · rw [hc2, hc1]; simp
      · rw [hl2, hl1]; simp
      · intro l hl
        rcases List.mem_cons.1 hl with rfl | hl
        · rfl
        · exact hi2 l hl
    · refine ⟨w2,
        [Call.Get (sprintfPath3 w.p.BasePath name w.p.ServiceAddress) (.ok kvPair),
         Call.Put (sprintfPath3 w.p.BasePath name w.p.ServiceAddress)
           (rewritten kvPair.Value data) (leafOptions w.p.UpdateInterval)
           (lib.Put (lib.Get kv (sprintfPath3 w.p.BasePath name w.p.ServiceAddress)).2
             (sprintfPath3 w.p.BasePath name w.p.ServiceAddress)
             (rewritten kvPair.Value data) (leafOptions w.p.UpdateInterval)).1] :: segs,
        hfold, hcfg, m2.trans m1, d2.trans d1, k2, ?_,
        List.Forall₂.cons (Or.inr ⟨kvPair, _, rfl⟩) hf2, infos, ?_, hi2⟩
      · rw [hc2, hc1]; simp
      · rw [hl2, hl1]

theorem Registry.lookup_append_none (r : Registry) (name key : GoString) (c : Meter)
    (h : r.lookup name = none) :
    ((r ++ [(name, c)]).lookup key) = if key = name then some c else r.lookup key := by
  induction r with
  | nil =>
    rw [List.nil_append, List.lookup_cons]
    by_cases hk : key = name
    · have hb : (key == name) = true := by simpa using hk
      simp [hb, hk]
    · have hb : (key == name) = false := by simpa using hk
      simp [hb, hk]
  | cons e r ih =>
    obtain ⟨k, d⟩ := e
    rw [List.lookup_cons] at h
    rw [List.cons_append, List.lookup_cons, List.lookup_cons]
    cases hnk : (name == k) with
    | true => rw [hnk] at h; simp at h
    | false =>
      rw [hnk] at h
      cases hkk : (key == k) with
      | true =>
        have h1 : key = k := by simpa using hkk
        have h2 : ¬ name = k := by simpa using hnk
        have h3 : ¬ key = name := fun h4 => h2 (h4 ▸ h1)
        simp [h3]
      | false => exact ih h

theorem Registry.count_getOrRegisterMeter (r : Registry) (name key : GoString) :
    (r.GetOrRegisterMeter name).Count key = r.Count key := by
  unfold Registry.GetOrRegisterMeter
  cases h : r.lookup name with
  | some c => rfl
  | none =>
    simp only [Registry.Count, Registry.lookup_append_none r name key ⟨0, false⟩ h]
    by_cases hk : key = name
    · subst hk; simp [h]
    · simp [hk]

theorem Registry.stopped_getOrRegisterMeter (r : Registry) (name key : GoString) :
    (r.GetOrRegisterMeter name).Stopped key = r.Stopped key := by
  unfold Registry.GetOrRegisterMeter
  cases h : r.lookup name with
  | some c => rfl
  | none =>
    simp only [Registry.Stopped, Registry.lookup_append_none r name key ⟨0, false⟩ h]
    by_cases hk : key = name
    · subst hk; simp [h]
    · simp [hk]

theorem Registry.lookup_getOrRegisterMeter (r : Registry) (name : GoString) :
    ((r.GetOrRegisterMeter name).lookup name).isSome = true := by
  unfold Registry.GetOrRegisterMeter
  cases h : r.lookup name with
  | some c => simp [h]
  | none => simp [Registry.lookup_append_none r name name ⟨0, false⟩ h]

theorem Registry.lookup_mark (r : Registry) (name key : GoString) (n : Int) :
    (r.Mark name n).lookup key =
      if key = name then (r.lookup key).map (fun m => m.Mark n) else r.lookup key := by
  unfold Registry.Mark
  induction r with
  | nil => simp
  | cons e r ih =>
    obtain ⟨k, c⟩ := e
    rw [List.map_cons, List.lookup_cons]
    by_cases hk : k = name
    · subst hk
      rw [if_pos rfl, List.lookup_cons]
      cases hkk : (key == k) with
      | true =>
        have h1 : key = k := by simpa using hkk
        simp [h1]
      | false => exact ih
    · rw [if_neg hk, List.lookup_cons]
      cases hkk : (key == k) with
      | true =>
        have h1 : key = k := by simpa using hkk
        have h2 : ¬ key = name := h1 ▸ hk
        simp [h2]
      | false => exact ih

/-- A running meter that is registered counts `n` more, in `int64`. -/
theorem Registry.count_mark (r : Registry) (name : GoString) (n : Int)
    (h : (r.lookup name).isSome = true) (hs : r.Stopped name = false) :
    (r.Mark name n).Count name = wrapInt64 (r.Count name + n) := by
  simp only [Registry.Count, Registry.Stopped, Registry.lookup_mark, if_pos] at hs ⊢
  cases hl : r.lookup name with
  | none => rw [hl] at h; simp at h
  | some c =>
    rw [hl] at hs
    simp only [Option.map_some', Option.getD_some] at hs ⊢
    simp [Meter.Mark, hs]

/-- A stopped meter keeps its count. -/
theorem Registry.count_mark_stopped (r : Registry) (name : GoString) (n : Int)
    (hs : r.Stopped name = true) :
    (r.Mark name n).Count name = r.Count name := by
  simp only [Registry.Count, Registry.Stopped, Registry.lookup_mark, if_pos] at hs ⊢
  cases hl : r.lookup name with
  | none => rfl
  | some c =>
    rw [hl] at hs
    simp only [Option.map_some', Option.getD_some] at hs ⊢
    simp [Meter.Mark, hs]

theorem Registry.count_mark_other (r : Registry) (name key : GoString) (n : Int)
    (h : key ≠ name) : (r.Mark name n).Count key = r.Count key := by
  simp only [Registry.Count, Registry.lookup_mark, if_neg h]

theorem World.getOrRegisterMeter_fields (w : World lib) (name : GoString) :
    sameConfig w (w.getOrRegisterMeter name) ∧
    (w.getOrRegisterMeter name).p.KV = w.p.KV ∧
    (w.getOrRegisterMeter name).calls = w.calls ∧
    (w.getOrRegisterMeter name).logs = w.logs ∧
    ∀ key, (w.getOrRegisterMeter name).registry.Count key = w.registry.Count key := by
  unfold World.getOrRegisterMeter World.registry sameConfig
  cases h : w.p.Metrics with
  | none => simp [h, Registry.count_getOrRegisterMeter]
  | some r => simp [Registry.count_getOrRegisterMeter]

/-- One refresh tick of a plugin that holds a store handle: it completes, and
the calls it adds to the history are one segment for each name of `Services`,
in order; only lines of level `Info` are logged. -/
theorem refreshTick_spec (w : World lib) (kv : lib.Store) (hkv : w.p.KV = some kv) :
    ∃ w' segs, refreshTick w = some w' ∧ sameConfig w w' ∧
      (∃ kv', w'.p.KV = some kv') ∧
      w'.calls = w.calls ++ segs.flatten ∧
      List.Forall₂ (refreshSegment w.p.BasePath w.p.ServiceAddress w.p.UpdateInterval
        (strconv.FormatInt ((w.registry.Count (str "clientMeter")).tdiv 60)))
        w.p.Services segs ∧
      ∃ infos, w'.logs = w.logs ++ infos ∧ ∀ l ∈ infos, l.1 = Level.Info := by
  obtain ⟨⟨cS, cB, cA, cU, cE, cT⟩, hk, hc, hl, hcount⟩ :=
    World.getOrRegisterMeter_fields w (str "clientMeter")
  obtain ⟨w', segs, h, ⟨dS, dB, dA, dU, dE, dT⟩, -, -, k, c, f, l⟩ :=
    refreshNames_spec
      (strconv.FormatInt
        (((w.getOrRegisterMeter (str "clientMeter")).registry.Count (str "clientMeter")).tdiv 60))
      (w.getOrRegisterMeter (str "clientMeter")).p.Services
      (w.getOrRegisterMeter (str "clientMeter")) kv (hk.trans hkv)
  rw [hcount, cB, cA, cU, cS] at f
  rw [hc] at c
  rw [hl] at l
  exact ⟨w', segs, h, ⟨dS.trans cS, dB.trans cB, dA.trans cA, dU.trans cU, dE.trans cE,
    dT.trans cT⟩, k, c, f, l⟩

end TickLemmas

section MoreLemmas
variable {lib : Libkv}

theorem wrapInt64_of_range (x : Int) (h1 : -2 ^ 63 ≤ x) (h2 : x < 2 ^ 63) : wrapInt64 x = x := by
  unfold wrapInt64
  omega

theorem leafTTL_leafOptions (u : Int) : leafTTL u (leafOptions u) := by
  refine ⟨rfl, ?_, ?_, ?_⟩
  · simp [leafOptions, mul_comm]
  · intro h1 h2
    simp only [leafOptions]
    rw [wrapInt64_of_range] <;> omega
  · intro h; subst h; simp [leafOptions, wrapInt64]

theorem register_services_cases {ρ : Type} (w : World lib) (name : GoString) (rcvr : ρ)
    (metadata : GoString) :
    ((Register w name rcvr metadata).1 ≠ none ∧
      (Register w name rcvr metadata).2.p.Services = w.p.Services) ∨
    ((Register w name rcvr metadata).1 = none ∧
      (Register w name rcvr metadata).2.p.Services = w.p.Services ++ [name]) := by
  by_cases hname : strings.TrimSpace name = []
  · rw [register_blank w name rcvr metadata hname]; simp
  · by_cases hnil : (Register w name rcvr metadata).1 = none
    · obtain ⟨kv, w0, hr⟩ := register_nil_reaches w name rcvr metadata hname hnil
      right
      refine ⟨hnil, ?_⟩
      rw [register_eq_writes w w0 kv name rcvr metadata hname hr] at hnil ⊢
      have hS := (reachesWrites_fields w w0 kv hr).1
      rcases registerWrites_cases w0 kv name with
        ⟨s1, e1, -⟩ | ⟨-, s2, e2, -⟩ | ⟨-, -, h3, e3, -⟩ | ⟨-, -, -, -, -, sv, -⟩
      · obtain ⟨e, he, -⟩ := s1
        rw [e1, he] at hnil; exact absurd hnil (by simp)
      · obtain ⟨e, he, -⟩ := s2
        rw [e2, he] at hnil; exact absurd hnil (by simp)
      · rw [e3] at hnil; exact absurd hnil h3
      · rw [sv, hS]
    · left
      refine ⟨hnil, ?_⟩
      cases hkv : w.p.KV with
      | some kv =>
        have hr : reachesWrites w kv w := Or.inl ⟨hkv, rfl⟩
        rw [register_eq_writes w w kv name rcvr metadata hname hr] at hnil ⊢
        rcases registerWrites_cases w kv name with
          ⟨-, -, -, sv⟩ | ⟨-, -, -, -, sv⟩ | ⟨-, -, -, -, -, sv⟩ | ⟨-, -, -, e, -⟩
        · exact sv
        · exact sv
        · exact sv
        · exact absurd e hnil
      | none =>
        cases hnew : lib.NewStore w.p.EtcdServers none with
        | error e =>
          simp [Register, hname, hkv, World.newStore, World.etcdRegister, hnew, World.logError]
        | ok kv =>
          have hr : reachesWrites w kv _ := Or.inr ⟨hkv, hnew, rfl⟩
          rw [register_eq_writes w _ kv name rcvr metadata hname hr] at hnil ⊢
          rcases registerWrites_cases _ kv name with
            ⟨-, -, -, sv⟩ | ⟨-, -, -, -, sv⟩ | ⟨-, -, -, -, -, sv⟩ | ⟨-, -, -, e, -⟩
          · exact sv
          · exact sv
          · exact sv
          · exact absurd e hnil

theorem start_services (w : World lib) : (Start w).2.p.Services = w.p.Services := by
  unfold Start
  cases hkv : w.p.KV with
  | some kv =>
    simp only [World.put, World.logError]
    split_ifs <;> rfl
  | none =>
    cases hnew : lib.NewStore w.p.EtcdServers w.p.Options with
    | error e => simp [World.newStore, hnew, World.logError]
    | ok kv =>
      simp only [World.newStore, hnew, World.put, World.logError, World.setKV]
      split_ifs <;> rfl

/-- When `Start` returns nil the plugin holds a store handle: the refresh loop it
may have started finds `p.KV` set. -/
theorem start_nil_handle (w : World lib) (h : (Start w).1 = none) :
    ∃ kv, (Start w).2.p.KV = some kv := by
  unfold Start at h ⊢
  cases hkv : w.p.KV with
  | some kv =>
    simp only [hkv, World.put, World.logError] at h ⊢
    split_ifs <;> exact ⟨_, rfl⟩
  | none =>
    cases hnew : lib.NewStore w.p.EtcdServers w.p.Options with
    | error e => simp [hkv, World.newStore, hnew, World.logError] at h
    | ok kv =>
      simp only [hkv, World.newStore, hnew, World.put, World.logError, World.setKV] at h ⊢
      split_ifs <;> exact ⟨_, rfl⟩

theorem refreshService_nil (data : GoString) (w : World lib) (name : GoString)
    (hkv : w.p.KV = none) : refreshService data w name = none := by
  simp [refreshService, hkv]

theorem refreshTick_services (w w' : World lib) (h : refreshTick w = some w') :
    w'.p.Services = w.p.Services := by
  cases hkv : w.p.KV with
  | some kv =>
    obtain ⟨w'', segs, h', ⟨cS, -⟩, -⟩ := refreshTick_spec w kv hkv
    rw [h] at h'
    cases h'
    exact cS
  | none =>
    obtain ⟨⟨cS, -⟩, hk, -⟩ := World.getOrRegisterMeter_fields w (str "clientMeter")
    unfold refreshTick at h
    simp only at h
    cases hs : (w.getOrRegisterMeter (str "clientMeter")).p.Services with
    | nil =>
      rw [hs] at h
      simp at h
      rw [← h, cS]
    | cons name names =>
      rw [hs, List.foldlM_cons, refreshService_nil _ _ _ (hk.trans hkv)] at h
      simp at h

end MoreLemmas

section CallLemmas
variable {lib : Libkv}

theorem register_calls_cases {ρ : Type} (w : World lib) (name : GoString) (rcvr : ρ)
    (metadata : GoString) (c : Call lib) (hc : c ∈ (Register w name rcvr metadata).2.calls) :
    c ∈ w.calls ∨ c = Call.EtcdRegister ∨ (∃ o e, c = Call.NewStore w.p.EtcdServers o e) ∨
    ∃ kv w0, reachesWrites w kv w0 ∧
      (c = baseCall w0 kv ∨ c = nameCall w0 kv name ∨ c = leafCall w0 kv name) := by
  by_cases hname : strings.TrimSpace name = []
  · rw [register_blank w name rcvr metadata hname] at hc
    exact Or.inl hc
  · have key : ∀ kv w0, reachesWrites w kv w0 → (∀ d ∈ w0.calls, d ∈ w.calls ∨
        d = Call.EtcdRegister ∨ (∃ o e, d = Call.NewStore w.p.EtcdServers o e)) →
        c ∈ w.calls ∨ c = Call.EtcdRegister ∨ (∃ o e, c = Call.NewStore w.p.EtcdServers o e) ∨
        ∃ kv w0, reachesWrites w kv w0 ∧
          (c = baseCall w0 kv ∨ c = nameCall w0 kv name ∨ c = leafCall w0 kv name) := by
      intro kv w0 hr hpre
      rw [register_eq_writes w w0 kv name rcvr metadata hname hr] at hc
      have hmem : c ∈ w0.calls ++ [baseCall w0 kv, nameCall w0 kv name, leafCall w0 kv name] := by
        rcases registerWrites_cases w0 kv name with
          ⟨-, -, cs, -⟩ | ⟨-, -, -, cs, -⟩ | ⟨-, -, -, -, cs, -⟩ | ⟨-, -, -, -, cs, -⟩
        all_goals
          rw [cs] at hc
          simp only [List.mem_append, List.mem_cons, List.mem_singleton, List.mem_nil_iff,
            or_false] at hc ⊢
          tauto
      rcases List.mem_append.1 hmem with h | h
      · rcases hpre c h with h | h | h
        · exact Or.inl h
        · exact Or.inr (Or.inl h)
        · exact Or.inr (Or.inr (Or.inl h))
      · refine Or.inr (Or.inr (Or.inr ⟨kv, w0, hr, ?_⟩))
        simpa using h
    cases hkv : w.p.KV with
    | some kv => exact key kv w (Or.inl ⟨hkv, rfl⟩) (fun d hd => Or.inl hd)
    | none =>
      cases hnew : lib.NewStore w.p.EtcdServers none with
      | error e =>
        simp only [Register, hname, hkv, World.newStore, World.etcdRegister, hnew,
          World.logError, if_false, List.append_assoc, List.mem_append, List.mem_cons,
          List.mem_singleton, List.mem_nil_iff, or_false] at hc
        rcases hc with h | h | h
        · exact Or.inl h
        · exact Or.inr (Or.inl h)
        · exact Or.inr (Or.inr (Or.inl ⟨_, _, h⟩))
      | ok kv =>
        refine key kv _ (Or.inr ⟨hkv, hnew, rfl⟩) ?_
        intro d hd
        simp only [List.mem_append, List.mem_cons, List.mem_singleton, List.mem_nil_iff,
          or_false] at hd
        rcases hd with h | h | h
        · exact Or.inl h
        · exact Or.inr (Or.inl h)
        · exact Or.inr (Or.inr ⟨_, _, h⟩)

theorem forall₂_mem_right {α β : Type} {R : α → β → Prop} {l₁ : List α} {l₂ : List β}
    (h : List.Forall₂ R l₁ l₂) : ∀ b ∈ l₂, ∃ a ∈ l₁, R a b := by
  induction h with
  | nil => intro b hb; simp at hb
  | cons hab _ ih =>
    intro b hb
    rcases List.mem_cons.1 hb with rfl | hb
    · exact ⟨_, List.mem_cons_self _ _, hab⟩
    · obtain ⟨a, ha, hr⟩ := ih b hb
      exact ⟨a, List.mem_cons_of_mem _ ha, hr⟩

theorem refreshTick_calls (w w' : World lib) (h : refreshTick w = some w') :
    ∃ segs, w'.calls = w.calls ++ segs.flatten ∧
      List.Forall₂ (refreshSegment w.p.BasePath w.p.ServiceAddress w.p.UpdateInterval
        (strconv.FormatInt ((w.registry.Count (str "clientMeter")).tdiv 60)))
        w.p.Services segs := by
  cases hkv : w.p.KV with
  | some kv =>
    obtain ⟨w'', segs, h', -, -, hc, hf, -⟩ := refreshTick_spec w kv hkv
    rw [h] at h'
    cases h'
    exact ⟨segs, hc, hf⟩
  | none =>
    obtain ⟨⟨cS, -⟩, hk, hc, -⟩ := World.getOrRegisterMeter_fields w (str "clientMeter")
    unfold refreshTick at h
    simp only at h
    cases hs : (w.getOrRegisterMeter (str "clientMeter")).p.Services with
    | nil =>
      rw [hs] at h
      simp at h
      refine ⟨[], ?_, ?_⟩
      · rw [← h, hc]; simp
      · rw [← cS, hs]; exact List.Forall₂.nil
    | cons name names =>
      rw [hs, List.foldlM_cons, refreshService_nil _ _ _ (hk.trans hkv)] at h
      simp at h

theorem refreshLoop_total (n : Nat) : ∀ (w : World lib) (kv : lib.Store), w.p.KV = some kv →
    ∃ w', refreshLoop n w = some w' := by
  induction n with
  | zero => intro w _ _; exact ⟨w, rfl⟩
  | succ n ih =>
    intro w kv hkv
    obtain ⟨w1, -, h1, -, ⟨kv1, hk1⟩, -⟩ := refreshTick_spec w kv hkv
    obtain ⟨w2, h2⟩ := ih w1 kv1 hk1
    exact ⟨w2, by simp [refreshLoop, h1, h2]⟩

end CallLemmas

/-! ## Query strings: escaping, encoding and parsing -/

namespace url

set_option maxRecDepth 100000 in
theorem hex_pair : ∀ n, n < 256 →
    ishex (upperhex (n >>> 4)) = true ∧ ishex (upperhex (n &&& 15)) = true ∧
    ((unhex (upperhex (n >>> 4)) <<< 4) ||| unhex (upperhex (n &&& 15))) = n ∧
    (upperhex (n >>> 4)).val ≠ 38 ∧ (upperhex (n >>> 4)).val ≠ 61 ∧
    (upperhex (n >>> 4)).val ≠ 59 ∧ (upperhex (n &&& 15)).val ≠ 38 ∧
    (upperhex (n &&& 15)).val ≠ 61 ∧ (upperhex (n &&& 15)).val ≠ 59 := by
  decide

theorem shouldEscape_false (c : Byte) (h : shouldEscape c = false) :
    c.val ≠ 37 ∧ c.val ≠ 43 ∧ c.val ≠ 38 ∧ c.val ≠ 61 ∧ c.val ≠ 59 := by
  unfold shouldEscape at h
  split_ifs at h <;> omega

theorem escapeByte_cases (c : Byte) :
    (c.val = 32 ∧ escapeByte c = [43]) ∨
    (c.val ≠ 32 ∧ shouldEscape c = true ∧
      escapeByte c = [37, upperhex (c.val >>> 4), upperhex (c.val &&& 15)]) ∨
    (c.val ≠ 32 ∧ shouldEscape c = false ∧ escapeByte c = [c]) := by
  unfold escapeByte
  by_cases h : c.val = 32
  · exact Or.inl ⟨h, by simp [h]⟩
  · cases hs : shouldEscape c with
    | true => exact Or.inr (Or.inl ⟨h, rfl, by simp [h]⟩)
    | false => exact Or.inr (Or.inr ⟨h, rfl, by simp [h]⟩)

theorem escapeByte_clean (c : Byte) :
    ∀ b ∈ escapeByte c, b.val ≠ 38 ∧ b.val ≠ 61 ∧ b.val ≠ 59 := by
  intro b hb
  rcases escapeByte_cases c with ⟨-, h⟩ | ⟨-, -, h⟩ | ⟨-, hs, h⟩
  · rw [h] at hb
    simp at hb
    subst hb
    decide
  · obtain ⟨-, -, -, a1, a2, a3, a4, a5, a6⟩ := hex_pair c.val c.isLt
    rw [h] at hb
    simp at hb
    rcases hb with rfl | rfl | rfl
    · decide
    · exact ⟨a1, a2, a3⟩
    · exact ⟨a4, a5, a6⟩
  · rw [h] at hb
    simp at hb
    subst hb
    obtain ⟨-, -, a, b, c⟩ := shouldEscape_false _ hs
    exact ⟨a, b, c⟩

theorem checkEscapes_cons_ne (c : Byte) (t : GoString) (h : c.val ≠ 37) :
    checkEscapes (c :: t) = checkEscapes t := by
  rcases t with _ | ⟨h1, _ | ⟨h2, t⟩⟩ <;> simp [checkEscapes, h]

theorem checkEscapes_cons_hex (c h1 h2 : Byte) (t : GoString) (h : c.val = 37)
    (a1 : ishex h1 = true) (a2 : ishex h2 = true) :
    checkEscapes (c :: h1 :: h2 :: t) = checkEscapes t := by
  simp [checkEscapes, h, a1, a2]

theorem decodeEscapes_cons_ne (c : Byte) (t : GoString) (h : c.val ≠ 37) (h' : c.val ≠ 43) :
    decodeEscapes (c :: t) = c :: decodeEscapes t := by
  rcases t with _ | ⟨h1, _ | ⟨h2, t⟩⟩ <;> simp [decodeEscapes, h, h']

theorem decodeEscapes_cons_plus (c : Byte) (t : GoString) (h : c.val = 43) :
    decodeEscapes (c :: t) = 32 :: decodeEscapes t := by
  rcases t with _ | ⟨h1, _ | ⟨h2, t⟩⟩ <;> simp [decodeEscapes, h]

theorem decodeEscapes_cons_hex (c h1 h2 : Byte) (t : GoString) (h : c.val = 37) :
    decodeEscapes (c :: h1 :: h2 :: t) =
      Fin.ofNat ((unhex h1 <<< 4) ||| unhex h2) :: decodeEscapes t := by
  simp [decodeEscapes, h]

theorem checkEscapes_escapeByte (c : Byte) (t : GoString) :
    checkEscapes (escapeByte c ++ t) = checkEscapes t := by
  rcases escapeByte_cases c with ⟨-, h⟩ | ⟨-, -, h⟩ | ⟨-, hs, h⟩
  · rw [h]; exact checkEscapes_cons_ne _ _ (by decide)
  · obtain ⟨a1, a2, -⟩ := hex_pair c.val c.isLt
    rw [h]; exact checkEscapes_cons_hex _ _ _ _ (by decide) a1 a2
  · obtain ⟨a, -⟩ := shouldEscape_false _ hs
    rw [h]; exact checkEscapes_cons_ne _ _ a

theorem decodeEscapes_escapeByte (c : Byte) (t : GoString) :
    decodeEscapes (escapeByte c ++ t) = c :: decodeEscapes t := by
  rcases escapeByte_cases c with ⟨h32, h⟩ | ⟨-, -, h⟩ | ⟨-, hs, h⟩
  · have hc : c = 32 := Fin.ext h32
    rw [h, hc]; exact decodeEscapes_cons_plus _ _ (by decide)
  · obtain ⟨-, -, a3, -⟩ := hex_pair c.val c.isLt
    rw [h]
    refine (decodeEscapes_cons_hex _ _ _ _ (by decide)).trans ?_
    rw [a3]
    congr 1
    apply Fin.ext
    simp [Fin.ofNat, Nat.mod_eq_of_lt c.isLt]
  · obtain ⟨a, b, -⟩ := shouldEscape_false _ hs
    rw [h]; exact decodeEscapes_cons_ne _ _ a b

theorem checkEscapes_QueryEscape (s : GoString) : checkEscapes (QueryEscape s) = none := by
  induction s with
  | nil => rfl
  | cons c s ih =>
    simp only [QueryEscape, List.flatMap_cons] at ih ⊢
    rw [checkEscapes_escapeByte]; exact ih

theorem decodeEscapes_QueryEscape (s : GoString) : decodeEscapes (QueryEscape s) = s := by
  induction s with
  | nil => rfl
  | cons c s ih =>
    simp only [QueryEscape, List.flatMap_cons] at ih ⊢
    rw [decodeEscapes_escapeByte, ih]

/-- Unescaping undoes escaping. -/
theorem QueryUnescape_QueryEscape (s : GoString) : QueryUnescape (QueryEscape s) = .ok s := by
  simp [QueryUnescape, checkEscapes_QueryEscape, decodeEscapes_QueryEscape]

theorem QueryEscape_clean (s : GoString) :
    ∀ b ∈ QueryEscape s, b.val ≠ 38 ∧ b.val ≠ 61 ∧ b.val ≠ 59 := by
  intro b hb
  simp only [QueryEscape, List.mem_flatMap] at hb
  obtain ⟨c, -, hc⟩ := hb
  exact escapeByte_clean c b hc

end url

section CutLemmas

theorem isPrefixOf_singleton (b c : Byte) (s : GoString) :
    [b].isPrefixOf (c :: s) = decide (b = c) := by
  by_cases h : b = c <;> simp [List.isPrefixOf, h]

theorem strings.cut_not_mem (b : Byte) (s : GoString) (h : b ∉ s) :
    strings.Cut s [b] = (s, [], false) := by
  induction s with
  | nil => rfl
  | cons c s ih =>
    have hbc : b ≠ c := fun e => h (e ▸ List.mem_cons_self _ _)
    have hs : b ∉ s := fun e => h (List.mem_cons_of_mem _ e)
    simp only [strings.Cut, isPrefixOf_singleton, hbc, decide_False, ih hs]
    simp

theorem strings.cut_append (b : Byte) (s t : GoString) (h : b ∉ s) :
    strings.Cut (s ++ b :: t) [b] = (s, t, true) := by
  induction s with
  | nil => simp [strings.Cut, isPrefixOf_singleton]
  | cons c s ih =>
    have hbc : b ≠ c := fun e => h (e ▸ List.mem_cons_self _ _)
    have hs : b ∉ s := fun e => h (List.mem_cons_of_mem _ e)
    rw [List.cons_append]
    simp only [strings.Cut, isPrefixOf_singleton, hbc, decide_False]
    rw [ih hs]
    simp

theorem strings.contains_not_mem (b : Byte) (s : GoString) (h : b ∉ s) :
    strings.Contains s [b] = false := by
  induction s with
  | nil => rfl
  | cons c s ih =>
    have hbc : b ≠ c := fun e => h (e ▸ List.mem_cons_self _ _)
    have hs : b ∉ s := fun e => h (List.mem_cons_of_mem _ e)
    simp [strings.Contains, isPrefixOf_singleton, hbc, ih hs]

end CutLemmas


namespace url

theorem encodePair_ne_nil (p : GoString × GoString) : encodePair p ≠ [] := by
  simp [encodePair]

theorem not_mem_QueryEscape (s : GoString) :
    (38 : Byte) ∉ QueryEscape s ∧ (61 : Byte) ∉ QueryEscape s ∧ (59 : Byte) ∉ QueryEscape s := by
  refine ⟨fun h => ?_, fun h => ?_, fun h => ?_⟩
  · exact (QueryEscape_clean s _ h).1 rfl
  · exact (QueryEscape_clean s _ h).2.1 rfl
  · exact (QueryEscape_clean s _ h).2.2 rfl

theorem not_mem_encodePair (p : GoString × GoString) :
    (38 : Byte) ∉ encodePair p ∧ (59 : Byte) ∉ encodePair p := by
  obtain ⟨a1, -, a3⟩ := not_mem_QueryEscape p.1
  obtain ⟨b1, -, b3⟩ := not_mem_QueryEscape p.2
  simp only [encodePair, List.mem_append, List.mem_singleton, not_or]
  exact ⟨⟨⟨a1, by decide⟩, b1⟩, ⟨⟨a3, by decide⟩, b3⟩⟩

theorem encodeValues_eq (k : GoString) (vs : List GoString) :
    ∀ buf, encodeValues (QueryEscape k) buf vs = (vs.map (fun x => (k, x))).foldl writePair buf := by
  induction vs with
  | nil => intro buf; rfl
  | cons x vs ih =>
    intro buf
    simp only [encodeValues, List.foldl_cons, List.map_cons] at ih ⊢
    rw [← ih]
    simp [writePair, encodePair, List.append_assoc]

theorem foldl_flatMap_writePair (f : GoString → List (GoString × GoString))
    (keys : List GoString) :
    ∀ buf, keys.foldl (fun buf k => (f k).foldl writePair buf) buf =
      (keys.flatMap f).foldl writePair buf := by
  induction keys with
  | nil => intro buf; rfl
  | cons k keys ih =>
    intro buf
    simp only [List.foldl_cons, List.flatMap_cons, List.foldl_append]
    exact ih _

theorem Values.encode_eq_foldl (v : Values) : v.Encode = v.pairs.foldl writePair [] := by
  simp only [Values.Encode, Values.pairs, encodeValues_eq]
  exact foldl_flatMap_writePair _ _ _

theorem foldl_writePair (ps : List (GoString × GoString)) :
    ∀ buf, ps.foldl writePair buf =
      if ps = [] then buf
      else if buf = [] then joinPairs ps
      else buf ++ 38 :: joinPairs ps := by
  induction ps with
  | nil => intro buf; rfl
  | cons p qs ih =>
    intro buf
    rw [List.foldl_cons, ih]
    have hne : writePair buf p ≠ [] := by
      simp [writePair, encodePair]
    cases qs with
    | nil =>
      by_cases hb : buf = []
      · subst hb; simp [writePair, joinPairs]
      · have hl : buf.length > 0 := List.length_pos.2 hb
        simp [writePair, joinPairs, hb, hl]
    | cons q qs =>
      by_cases hb : buf = []
      · subst hb; simp [writePair, joinPairs, encodePair_ne_nil]
      · have hl : buf.length > 0 := List.length_pos.2 hb
        simp [writePair, joinPairs, hb, hl, hne]

theorem Values.encode_eq_join (v : Values) : v.Encode = joinPairs v.pairs := by
  rw [Values.encode_eq_foldl, foldl_writePair]
  by_cases h : v.pairs = []
  · simp [h, joinPairs]
  · simp [h]

theorem parseQueryLoop_nil (fuel : Nat) (m : Values) (err : Option Error) :
    parseQueryLoop fuel m err [] = (m, err) := by
  cases fuel <;> simp [parseQueryLoop]

theorem cut_encodePair (p : GoString × GoString) :
    strings.Cut (encodePair p) [61] = (QueryEscape p.1, QueryEscape p.2, true) := by
  have h := strings.cut_append 61 (QueryEscape p.1) (QueryEscape p.2) (not_mem_QueryEscape p.1).2.1
  simpa [encodePair] using h

/-- One turn of the loop of `parseQuery` on a query that begins with a pair
written by `Encode`. -/
theorem parseQueryLoop_pair (fuel : Nat) (m : Values) (err : Option Error)
    (query rest : GoString) (p : GoString × GoString) (found : Bool)
    (hq : query ≠ []) (hcut : strings.Cut query [38] = (encodePair p, rest, found)) :
    parseQueryLoop (fuel + 1) m err query = parseQueryLoop fuel (m.add p) err rest := by
  rw [parseQueryLoop]
  simp only [hq, if_false, hcut, strings.contains_not_mem 59 _ (not_mem_encodePair p).2,
    encodePair_ne_nil, cut_encodePair, QueryUnescape_QueryEscape, Values.add]
  simp

theorem parseQueryLoop_joinPairs (ps : List (GoString × GoString)) :
    ∀ (fuel : Nat) (m : Values) (err : Option Error), (joinPairs ps).length ≤ fuel →
      parseQueryLoop fuel m err (joinPairs ps) = (ps.foldl Values.add m, err) := by
  induction ps with
  | nil => intro fuel m err _; exact parseQueryLoop_nil fuel m err
  | cons p qs ih =>
    intro fuel m err hfuel
    cases qs with
    | nil =>
      have hne : joinPairs [p] ≠ [] := encodePair_ne_nil p
      cases fuel with
      | zero =>
        simp only [joinPairs] at hfuel hne
        exact absurd (List.length_eq_zero.1 (Nat.le_zero.1 hfuel)) hne
      | succ fuel =>
        rw [parseQueryLoop_pair fuel m err _ [] p false hne
          (strings.cut_not_mem 38 _ (not_mem_encodePair p).1), parseQueryLoop_nil]
        rfl
    | cons q qs =>
      have hne : joinPairs (p :: q :: qs) ≠ [] := by
        simp [joinPairs]
      cases fuel with
      | zero =>
        exact absurd (List.length_eq_zero.1 (Nat.le_zero.1 hfuel)) hne
      | succ fuel =>
        have hlen : (joinPairs (q :: qs)).length ≤ fuel := by
          simp only [joinPairs, List.length_append, List.length_cons] at hfuel
          omega
        rw [parseQueryLoop_pair fuel m err _ (joinPairs (q :: qs)) p true hne
          (strings.cut_append 38 _ _ (not_mem_encodePair p).1), ih fuel _ err hlen]
        rfl

theorem count_encodePair (p : GoString × GoString) : (encodePair p).count 38 = 0 :=
  List.count_eq_zero.2 (not_mem_encodePair p).1

/-- Joined pairs hold one `&` fewer than there are pairs. -/
theorem count_joinPairs (ps : List (GoString × GoString)) :
    (joinPairs ps).count 38 = ps.length - 1 := by
  induction ps with
  | nil => rfl
  | cons p qs ih =>
    cases qs with
    | nil => simp [joinPairs, count_encodePair]
    | cons q qs =>
      simp only [joinPairs, List.count_append, count_encodePair, List.count_cons_self, ih,
        List.length_cons]
      omega

/-- Parsing joined pairs, at most 10000 of them, reads them back in order and
without error. -/
theorem ParseQuery_joinPairs (ps : List (GoString × GoString)) (h : ps.length ≤ 10000) :
    ParseQuery (joinPairs ps) = (ps.foldl Values.add [], none) := by
  have hw : urlParamsWithinMax (strings.Count (joinPairs ps) [38] + 1) = true := by
    simp only [urlParamsWithinMax, defaultMaxParams, strings.Count, count_joinPairs,
      decide_eq_true_eq]
    omega
  rw [ParseQuery, parseQuery, hw]
  exact parseQueryLoop_joinPairs _ _ _ _ (Nat.le_refl _)

/-- Joined pairs, more than 10000 of them, are refused and nothing is parsed. -/
theorem ParseQuery_joinPairs_refused (ps : List (GoString × GoString))
    (h : 10000 < ps.length) :
    ParseQuery (joinPairs ps) = ([], some Error.TooManyParams) := by
  have hw : urlParamsWithinMax (strings.Count (joinPairs ps) [38] + 1) = false := by
    simp only [urlParamsWithinMax, defaultMaxParams, strings.Count, count_joinPairs,
      decide_eq_false_iff_not]
    omega
  rw [ParseQuery, parseQuery, hw]
  rfl

/-- Parsing what `Encode` wrote, when that holds at most 10000 pairs, reads back
its pairs, in order and without error. -/
theorem ParseQuery_Encode (v : Values) (h : strings.Count v.Encode [38] + 1 ≤ 10000) :
    ParseQuery v.Encode = (v.pairs.foldl Values.add [], none) := by
  have hw : urlParamsWithinMax (strings.Count v.Encode [38] + 1) = true := by
    simpa [urlParamsWithinMax, defaultMaxParams] using h
  rw [ParseQuery, parseQuery, hw, Values.encode_eq_join]
  exact parseQueryLoop_joinPairs _ _ _ _ (Nat.le_refl _)

theorem Values.lookup_assign (v : Values) (key : GoString) (vs : List GoString)
    (k : GoString) :
    (v.assign key vs).lookup k = if k = key then some vs else v.lookup k := by
  induction v with
  | nil =>
    rw [Values.assign, List.lookup_cons]
    by_cases h : k = key
    · simp [h]
    · have hb : (k == key) = false := by simpa using h
      simp [h, hb]
  | cons e v ih =>
    obtain ⟨k', vs'⟩ := e
    rw [Values.assign]
    by_cases he : k' = key
    · subst he
      rw [if_pos rfl, List.lookup_cons, List.lookup_cons]
      by_cases h : k = k'
      · simp [h]
      · have hb : (k == k') = false := by simpa using h
        simp [h, hb]
    · rw [if_neg he, List.lookup_cons, List.lookup_cons, ih]
      by_cases h : k = k'
      · subst h
        simp [he]
      · have hb : (k == k') = false := by simpa using h
        simp [hb]

theorem Values.index_assign (v : Values) (key : GoString) (vs : List GoString)
    (k : GoString) :
    (v.assign key vs).index k = if k = key then vs else v.index k := by
  unfold Values.index
  rw [Values.lookup_assign]
  by_cases h : k = key <;> simp [h]

theorem Values.lookup_foldl_add (ps : List (GoString × GoString)) :
    ∀ (m : Values) (k : GoString), (ps.foldl Values.add m).lookup k =
      if (ps.filter (fun p => p.1 = k)).map Prod.snd = [] then m.lookup k
      else some (m.index k ++ (ps.filter (fun p => p.1 = k)).map Prod.snd) := by
  induction ps with
  | nil => intro m k; simp
  | cons p ps ih =>
    intro m k
    rw [List.foldl_cons, ih]
    by_cases hp : p.1 = k
    · subst hp
      simp only [Values.add, Values.lookup_assign, Values.index_assign, if_true,
        List.filter_cons, decide_True, List.map_cons]
      by_cases hx : List.map Prod.snd (List.filter (fun q => decide (q.1 = p.1)) ps) = []
      · simp [hx]
      · simp [hx]
    · have hk : ¬ k = p.1 := fun e => hp e.symm
      simp only [Values.add, Values.lookup_assign, Values.index_assign, hk, if_false,
        List.filter_cons, hp, decide_False]
      simp

theorem filter_pairs_flatMap (f : GoString → List GoString) (k : GoString)
    (l : List GoString) :
    ((l.flatMap (fun k' => (f k').map (fun x => (k', x)))).filter
        (fun p => p.1 = k)).map Prod.snd =
      l.flatMap (fun k' => if k' = k then f k' else []) := by
  induction l with
  | nil => rfl
  | cons a l ih =>
    simp only [List.flatMap_cons, List.filter_append, List.map_append, ih]
    congr 1
    by_cases h : a = k
    · simp [h, List.filter_map, Function.comp_def]
    · simp [h, List.filter_map, Function.comp_def]

theorem flatMap_select (f : GoString → List GoString) (k : GoString) (l : List GoString)
    (hl : l.Nodup) :
    l.flatMap (fun k' => if k' = k then f k' else []) = if k ∈ l then f k else [] := by
  induction l with
  | nil => rfl
  | cons a l ih =>
    rw [List.nodup_cons] at hl
    rw [List.flatMap_cons, ih hl.2]
    by_cases h : a = k
    · subst h
      simp [hl.1]
    · have h' : ¬ k = a := fun e => h e.symm
      simp [h, h']

theorem Values.lookup_eq_none (v : Values) (k : GoString) (h : k ∉ v.map Prod.fst) :
    v.lookup k = none := by
  induction v with
  | nil => rfl
  | cons e v ih =>
    obtain ⟨k', vs⟩ := e
    simp only [List.map_cons, List.mem_cons, not_or] at h
    have hb : (k == k') = false := by simpa using h.1
    rw [List.lookup_cons, hb]
    exact ih h.2

theorem Values.lookup_mem (v : Values) (k : GoString) (h : k ∈ v.map Prod.fst) :
    ∃ vs, v.lookup k = some vs ∧ (k, vs) ∈ v := by
  induction v with
  | nil => simp at h
  | cons e v ih =>
    obtain ⟨k', vs⟩ := e
    rw [List.lookup_cons]
    by_cases hk : k = k'
    · subst hk
      exact ⟨vs, by simp, List.mem_cons_self _ _⟩
    · have hb : (k == k') = false := by simpa using hk
      simp only [List.map_cons, List.mem_cons, hk, false_or] at h
      obtain ⟨vs', h1, h2⟩ := ih h
      exact ⟨vs', by simp [hb, h1], List.mem_cons_of_mem _ h2⟩

theorem Values.pairs_values (v : Values) (hv : v.WF) (k : GoString) :
    (v.pairs.filter (fun p => p.1 = k)).map Prod.snd = v.index k := by
  have hperm := List.perm_insertionSort (fun a b : GoString => a ≤ b) (v.map Prod.fst)
  rw [Values.pairs, filter_pairs_flatMap, flatMap_select _ _ _ (hperm.nodup_iff.2 hv.1)]
  by_cases h : k ∈ v.map Prod.fst
  · rw [if_pos (hperm.mem_iff.2 h)]
  · rw [if_neg (fun e => h (hperm.mem_iff.1 e))]
    simp [Values.index, Values.lookup_eq_none v k h]

/-- Decoding what `Encode` wrote, when that holds at most 10000 pairs, gives the
map back: no error, and the same values at every key. -/
theorem ParseQuery_Encode_lookup (v : Values) (hv : v.WF)
    (h : strings.Count v.Encode [38] + 1 ≤ 10000) :
    (ParseQuery v.Encode).2 = none ∧
    ∀ k, (ParseQuery v.Encode).1.lookup k = v.lookup k := by
  rw [ParseQuery_Encode v h]
  refine ⟨rfl, fun k => ?_⟩
  simp only
  rw [Values.lookup_foldl_add, Values.pairs_values v hv k]
  by_cases h : k ∈ v.map Prod.fst
  · obtain ⟨vs, h1, h2⟩ := Values.lookup_mem v k h
    have hne : vs ≠ [] := hv.2 _ h2
    simp [Values.index, h1, hne]
  · simp [Values.index, Values.lookup_eq_none v k h]

theorem Values.keys_assign (v : Values) (key : GoString) (vs : List GoString) :
    (v.assign key vs).map Prod.fst =
      if key ∈ v.map Prod.fst then v.map Prod.fst else v.map Prod.fst ++ [key] := by
  induction v with
  | nil => simp [Values.assign]
  | cons e v ih =>
    obtain ⟨k', vs'⟩ := e
    rw [Values.assign]
    by_cases he : k' = key
    · subst he; simp
    · have he' : ¬ key = k' := fun e => he e.symm
      rw [if_neg he, List.map_cons, ih]
      by_cases hm : key ∈ v.map Prod.fst
      · simp [hm]
      · simp [hm, he']

theorem Values.mem_assign (v : Values) (key : GoString) (vs : List GoString) :
    ∀ e ∈ v.assign key vs, e ∈ v ∨ e = (key, vs) := by
  induction v with
  | nil => intro e he; simp [Values.assign] at he; exact Or.inr he
  | cons a v ih =>
    intro e he
    rw [Values.assign] at he
    by_cases ha : a.1 = key
    · rw [if_pos ha] at he
      rcases List.mem_cons.1 he with h | h
      · exact Or.inr h
      · exact Or.inl (List.mem_cons_of_mem _ h)
    · rw [if_neg ha] at he
      rcases List.mem_cons.1 he with h | h
      · exact Or.inl (h ▸ List.mem_cons_self _ _)
      · rcases ih e h with h | h
        · exact Or.inl (List.mem_cons_of_mem _ h)
        · exact Or.inr h

theorem Values.wf_assign (v : Values) (key : GoString) (vs : List GoString)
    (hv : v.WF) (hvs : vs ≠ []) : (v.assign key vs).WF := by
  constructor
  · rw [Values.keys_assign]
    by_cases hm : key ∈ v.map Prod.fst
    · rw [if_pos hm]; exact hv.1
    · rw [if_neg hm]
      exact List.Nodup.append hv.1 (List.nodup_singleton _) (by simpa using hm)
  · intro e he
    rcases Values.mem_assign v key vs e he with h | h
    · exact hv.2 e h
    · rw [h]; exact hvs

theorem parseQueryLoop_wf (fuel : Nat) :
    ∀ (m : Values) (err : Option Error) (query : GoString), m.WF →
      (parseQueryLoop fuel m err query).1.WF := by
  induction fuel with
  | zero => intro m err query hm; exact hm
  | succ fuel ih =>
    intro m err query hm
    rw [parseQueryLoop]
    split
    · exact hm
    · split
      split
      · exact ih _ _ _ hm
      · split
        · exact ih _ _ _ hm
        · split
          split
          · exact ih _ _ _ hm
          · split
            · exact ih _ _ _ hm
            · exact ih _ _ _ (Values.wf_assign _ _ _ hm (by simp))

theorem Values.wf_nil : Values.WF [] := ⟨List.nodup_nil, by simp⟩

theorem ParseQuery_wf (query : GoString) : (ParseQuery query).1.WF := by
  rw [ParseQuery, parseQuery]
  split
  · exact Values.wf_nil
  · exact parseQueryLoop_wf _ _ _ _ Values.wf_nil

theorem Values.wf_Set (v : Values) (key value : GoString) (hv : v.WF) : (v.Set key value).WF :=
  Values.wf_assign v key [value] hv (by simp)

end url


theorem str_amp : str "&" = [38] := by decide

/-- The value the refresh loop writes, when it holds at most 10000 pairs,
decodes, without error, to the decoding of the stored value with `tps` set. -/
theorem rewritten_decodes (s data : GoString)
    (h : strings.Count (rewritten s data) (str "&") + 1 ≤ 10000) :
    (url.ParseQuery (rewritten s data)).2 = none ∧
    (∀ key, (url.ParseQuery (rewritten s data)).1.lookup key =
      ((url.ParseQuery s).1.Set (str "tps") data).lookup key) ∧
    (url.ParseQuery (rewritten s data)).1.lookup (str "tps") = some [data] ∧
    (∀ key, key ≠ str "tps" →
      (url.ParseQuery (rewritten s data)).1.lookup key = (url.ParseQuery s).1.lookup key) := by
  rw [str_amp] at h
  obtain ⟨h1, h2⟩ := url.ParseQuery_Encode_lookup ((url.ParseQuery s).1.Set (str "tps") data)
    (url.Values.wf_Set _ _ _ (url.ParseQuery_wf s)) h
  refine ⟨h1, h2, ?_, ?_⟩
  · rw [rewritten, h2, url.Values.Set, url.Values.lookup_assign, if_pos rfl]
  · intro key hkey
    rw [rewritten, h2, url.Values.Set, url.Values.lookup_assign, if_neg hkey]

/-! ## The loops with fuel have enough of it -/

section FuelLemmas

theorem strings.cut_rest_length (b : Byte) (s : GoString) (hs : s ≠ []) :
    (strings.Cut s [b]).2.1.length < s.length := by
  induction s with
  | nil => exact absurd rfl hs
  | cons c s ih =>
    simp only [strings.Cut, isPrefixOf_singleton]
    by_cases hbc : b = c
    · simp [hbc]
    · simp only [hbc, decide_False, Bool.false_eq_true, if_false, List.length_cons]
      cases s with
      | nil => simp [strings.Cut]
      | cons d s => exact Nat.lt_succ_of_lt (ih (by simp))

/-- The loop of `parseQuery` has ended once the fuel reaches the length of the
query: more fuel gives the same result. -/
theorem url.parseQueryLoop_fuel (fuel₁ : Nat) :
    ∀ (fuel₂ : Nat) (m : url.Values) (err : Option url.Error) (query : GoString),
      query.length ≤ fuel₁ → query.length ≤ fuel₂ →
      url.parseQueryLoop fuel₁ m err query = url.parseQueryLoop fuel₂ m err query := by
  induction fuel₁ with
  | zero =>
    intro fuel₂ m err query h1 _
    have hq : query = [] := List.length_eq_zero.1 (Nat.le_zero.1 h1)
    subst hq
    rw [url.parseQueryLoop_nil, url.parseQueryLoop_nil]
  | succ fuel₁ ih =>
    intro fuel₂ m err query h1 h2
    by_cases hq : query = []
    · subst hq
      rw [url.parseQueryLoop_nil, url.parseQueryLoop_nil]
    · cases fuel₂ with
      | zero => exact absurd (List.length_eq_zero.1 (Nat.le_zero.1 h2)) hq
      | succ fuel₂ =>
        have hlt := strings.cut_rest_length 38 query hq
        have hr1 : (strings.Cut query [38]).2.1.length ≤ fuel₁ := by omega
        have hr2 : (strings.Cut query [38]).2.1.length ≤ fuel₂ := by omega
        rcases hcut : strings.Cut query [38] with ⟨key, rest, found⟩
        rw [hcut] at hr1 hr2
        simp only at hr1 hr2
        rw [url.parseQueryLoop, url.parseQueryLoop]
        simp only [hq, if_false, hcut]
        split_ifs
        · exact ih _ _ _ _ hr1 hr2
        · exact ih _ _ _ _ hr1 hr2
        all_goals
          cases url.QueryUnescape (strings.Cut key [61]).1 with
          | error e => exact ih _ _ _ _ hr1 hr2
          | ok k' =>
            cases url.QueryUnescape (strings.Cut key [61]).2.1 with
            | error e => exact ih _ _ _ _ hr1 hr2
            | ok v' => exact ih _ _ _ _ hr1 hr2

/-- The byte of a decimal digit character. -/
theorem digitChar_byte (d : Nat) (hd : d < 10) :
    (Fin.ofNat (Nat.digitChar d).toNat : Byte) = Fin.ofNat (48 + d) := by
  interval_cases d <;> rfl

/-- The digits `formatDigits` writes are those of the decimal representation of
the library (`Nat.toDigits 10`), as bytes. -/
theorem strconv.formatDigits_eq (fuel : Nat) :
    ∀ (n : Nat) (acc : List Char),
      strconv.formatDigits fuel n (acc.map (fun c => Fin.ofNat c.toNat)) =
        (Nat.toDigitsCore 10 fuel n acc).map (fun c => Fin.ofNat c.toNat) := by
  induction fuel with
  | zero => intro n acc; rfl
  | succ fuel ih =>
    intro n acc
    simp only [strconv.formatDigits, Nat.toDigitsCore]
    have hd := digitChar_byte (n % 10) (Nat.mod_lt _ (by decide))
    by_cases h : n / 10 = 0
    · simp [h, hd]
    · simp only [h, if_false]
      rw [← hd]
      exact ih (n / 10) ((n % 10).digitChar :: acc)

/-- Function `FormatInt` on a natural number is its decimal representation. -/
theorem strconv.FormatInt_natCast (n : Nat) :
    strconv.FormatInt (n : Int) = (Nat.toDigits 10 n).map (fun c => Fin.ofNat c.toNat) := by
  have h := strconv.formatDigits_eq (n + 1) n []
  simp only [List.map_nil] at h
  simp only [strconv.FormatInt, Nat.toDigits]
  rw [if_neg (by omega)]
  simpa using h

theorem utf8.DecodeRuneInString_size (s : GoString) (hs : s ≠ []) :
    1 ≤ (utf8.DecodeRuneInString s).2 := by
  rcases s with _ | ⟨c0, _ | ⟨c1, _ | ⟨c2, _ | ⟨c3, t⟩⟩⟩⟩
  · exact absurd rfl hs
  all_goals
    simp only [utf8.DecodeRuneInString]
    repeat' split
    all_goals simp

theorem utf8.scanStart_le (s : GoString) (lim : Nat) (n : Nat) :
    utf8.scanStart s lim n ≤ (n : Int) := by
  induction n with
  | zero =>
    simp only [utf8.scanStart]
    split_ifs <;> simp
  | succ n ih =>
    simp only [utf8.scanStart]
    split_ifs
    · exact Int.le_refl _
    · exact Int.le_refl _
    · exact Int.le_trans ih (by simp)

theorem utf8.DecodeLastRuneInString_size (s : GoString) (hs : s ≠ []) :
    1 ≤ (utf8.DecodeLastRuneInString s).2 := by
  have hlen : 0 < s.length := List.length_pos.2 hs
  have hb := utf8.scanStart_le s (s.length - utf8.UTFMax) (s.length - 2)
  simp only [utf8.DecodeLastRuneInString]
  rw [if_neg (by omega)]
  split_ifs
  all_goals first
    | exact Nat.le_refl _
    | (apply utf8.DecodeRuneInString_size
       intro e
       have := congrArg List.length e
       simp at this
       first | exact hs this | omega)

/-- The loop of `TrimLeftFunc` has ended once the fuel reaches the length of the
string: more fuel gives the same result. -/
theorem strings.trimLeftLoop_fuel (f : Nat → Bool) (fuel₁ : Nat) :
    ∀ (fuel₂ : Nat) (s : GoString), s.length ≤ fuel₁ → s.length ≤ fuel₂ →
      strings.trimLeftLoop f fuel₁ s = strings.trimLeftLoop f fuel₂ s := by
  induction fuel₁ with
  | zero =>
    intro fuel₂ s h1 _
    have hs : s = [] := List.length_eq_zero.1 (Nat.le_zero.1 h1)
    subst hs
    cases fuel₂ <;> rfl
  | succ fuel₁ ih =>
    intro fuel₂ s h1 h2
    cases s with
    | nil => cases fuel₂ <;> rfl
    | cons c s =>
      cases fuel₂ with
      | zero => simp at h2
      | succ fuel₂ =>
        have hsz := utf8.DecodeRuneInString_size (c :: s) (by simp)
        simp only [strings.trimLeftLoop]
        split_ifs
        · apply ih
          · simp only [List.length_drop, List.length_cons] at h1 ⊢; omega
          · simp only [List.length_drop, List.length_cons] at h2 ⊢; omega
        · rfl

/-- The loop of `lastIndexFunc` has ended once the fuel reaches the index it
starts from: more fuel gives the same result. -/
theorem strings.lastIndexLoop_fuel (s : GoString) (f : Nat → Bool) (fuel₁ : Nat) :
    ∀ (fuel₂ i : Nat), i ≤ fuel₁ → i ≤ fuel₂ → i ≤ s.length →
      strings.lastIndexLoop s f fuel₁ i = strings.lastIndexLoop s f fuel₂ i := by
  induction fuel₁ with
  | zero =>
    intro fuel₂ i h1 _ _
    have hi : i = 0 := Nat.le_zero.1 h1
    subst hi
    cases fuel₂ <;> simp [strings.lastIndexLoop]
  | succ fuel₁ ih =>
    intro fuel₂ i h1 h2 h3
    cases fuel₂ with
    | zero =>
      have hi : i = 0 := Nat.le_zero.1 h2
      subst hi
      simp [strings.lastIndexLoop]
    | succ fuel₂ =>
      simp only [strings.lastIndexLoop]
      by_cases hi : i = 0
      · simp [hi]
      · have hne : s.take i ≠ [] := by
          intro e
          have hl : (s.take i).length = 0 := by rw [e]; rfl
          rw [List.length_take] at hl
          omega
        have hsz := utf8.DecodeLastRuneInString_size (s.take i) hne
        simp only [hi, if_false]
        split_ifs
        · generalize (utf8.DecodeLastRuneInString (List.take i s)).2 = sz at hsz ⊢
          apply ih <;> omega
        · rfl

end FuelLemmas

/-! ## C1: a blank name is refused before anything is done -/

/-- C1. For every world and every name that `strings.TrimSpace` reduces to the
empty string, `Register` returns a non-nil error and leaves the world as it was:
no call reaches the store library (no `Put`, no `NewStore`) and `Services` is
unchanged. -/
theorem C1_blank_name_rejected {lib : Libkv} {ρ : Type} (w : World lib) (name : GoString)
    (rcvr : ρ) (metadata : GoString) (hblank : strings.TrimSpace name = []) :
    (Register w name rcvr metadata).1 ≠ none ∧
    (Register w name rcvr metadata).2.calls = w.calls ∧
    (Register w name rcvr metadata).2.p.Services = w.p.Services ∧
    (Register w name rcvr metadata).2 = w := by
  rw [register_blank w name rcvr metadata hblank]
  simp

/-- C1 at the name `" \t "`, blank after trimming, in a world that already
holds a store handle. -/
theorem C1_blank_name_rejected_witness :
    strings.TrimSpace (str " \t ") = [] ∧
    (Register (connectedWorld mapLib []) (str " \t ") () []).1 ≠ none ∧
    (Register (connectedWorld mapLib []) (str " \t ") () []).2 = connectedWorld mapLib [] :=
  ⟨by decide,
   (C1_blank_name_rejected (connectedWorld mapLib []) (str " \t ") () [] (by decide)).1,
   (C1_blank_name_rejected (connectedWorld mapLib []) (str " \t ") () [] (by decide)).2.2.2⟩

/-! ## C3: the two directory writes -/

/-- C3. For a non-blank name, in a world where `Register` reaches its writes
(`w0` is the world and `kv` the store state at the first `Put`):
* `Register` stops at the write at `BasePath` (it is the last call of the
  history) if and only if that `Put` returned an error whose message does not
  contain "Not a file"; it then returns exactly that error and `Services` is
  unchanged; otherwise the write at `BasePath/name` follows;
* likewise `Register` stops at the write at `BasePath/name` if and only if that
  `Put` returned such an error, returns it and leaves `Services` unchanged;
* when neither write surfaces an error (each succeeded or reported
  "Not a file"), the leaf write follows and the result of `Register` is the
  result of the leaf write: the bootstrap itself surfaces nothing. -/
theorem C3_directory_writes {lib : Libkv} {ρ : Type} (w w0 : World lib) (kv : lib.Store)
    (name : GoString) (rcvr : ρ) (metadata : GoString)
    (hname : strings.TrimSpace name ≠ []) (hr : reachesWrites w kv w0) :
    ((Register w name rcvr metadata).2.calls = w0.calls ++ [baseCall w0 kv] ↔
      surfaces (basePut w0 kv).1) ∧
    (surfaces (basePut w0 kv).1 →
      (Register w name rcvr metadata).1 = (basePut w0 kv).1 ∧
      (Register w name rcvr metadata).2.p.Services = w.p.Services) ∧
    (¬ surfaces (basePut w0 kv).1 →
      ∃ rest, (Register w name rcvr metadata).2.calls =
        w0.calls ++ baseCall w0 kv :: nameCall w0 kv name :: rest) ∧
    (¬ surfaces (basePut w0 kv).1 →
      ((Register w name rcvr metadata).2.calls =
          w0.calls ++ [baseCall w0 kv, nameCall w0 kv name] ↔
        surfaces (namePut w0 kv name).1)) ∧
    (¬ surfaces (basePut w0 kv).1 → surfaces (namePut w0 kv name).1 →
      (Register w name rcvr metadata).1 = (namePut w0 kv name).1 ∧
      (Register w name rcvr metadata).2.p.Services = w.p.Services) ∧
    (¬ surfaces (basePut w0 kv).1 → ¬ surfaces (namePut w0 kv name).1 →
      (Register w name rcvr metadata).2.calls =
        w0.calls ++ [baseCall w0 kv, nameCall w0 kv name, leafCall w0 kv name] ∧
      (Register w name rcvr metadata).1 = (leafPut w0 kv name).1) := by
  rw [register_eq_writes w w0 kv name rcvr metadata hname hr]
  have hS := (reachesWrites_fields w w0 kv hr).1
  rcases registerWrites_cases w0 kv name with
    ⟨s1, e, c, sv⟩ | ⟨n1, s2, e, c, sv⟩ | ⟨n1, n2, h3, e, c, sv⟩ | ⟨n1, n2, h3, e, c, sv, -⟩
  · refine ⟨⟨fun _ => s1, fun _ => c⟩, fun _ => ⟨e, sv.trans hS⟩, fun h => absurd s1 h,
      fun h => absurd s1 h, fun h => absurd s1 h, fun h => absurd s1 h⟩
  · refine ⟨⟨fun h => ?_, fun h => absurd h n1⟩, fun h => absurd h n1, fun _ => ⟨[], c⟩,
      fun _ => ⟨fun _ => s2, fun _ => c⟩, fun _ _ => ⟨e, sv.trans hS⟩, fun _ h => absurd s2 h⟩
    rw [c] at h
    simpa using congrArg List.length h
  · refine ⟨⟨fun h => ?_, fun h => absurd h n1⟩, fun h => absurd h n1, fun _ => ⟨[_], c⟩,
      fun _ => ⟨fun h => ?_, fun h => absurd h n2⟩, fun _ h => absurd h n2, fun _ _ => ⟨c, e⟩⟩
    · rw [c] at h
      simpa using congrArg List.length h
    · rw [c] at h
      simpa using congrArg List.length h
  · refine ⟨⟨fun h => ?_, fun h => absurd h n1⟩, fun h => absurd h n1, fun _ => ⟨[_], c⟩,
      fun _ => ⟨fun h => ?_, fun h => absurd h n2⟩, fun _ h => absurd h n2,
      fun _ _ => ⟨c, e.trans h3.symm⟩⟩
    · rw [c] at h
      simpa using congrArg List.length h
    · rw [c] at h
      simpa using congrArg List.length h

/-- C3 over a store in which both directories exist already: both directory
writes report "Not a file", neither surfaces, and `Register` returns what the
leaf write returns, nil. -/
theorem C3_directory_writes_witness :
    strings.TrimSpace (str "Arith") ≠ [] ∧
    reachesWrites (connectedWorld dirLib bootstrappedStore) bootstrappedStore
      (connectedWorld dirLib bootstrappedStore) ∧
    (basePut (connectedWorld dirLib bootstrappedStore) bootstrappedStore).1 ≠ none ∧
    (namePut (connectedWorld dirLib bootstrappedStore) bootstrappedStore (str "Arith")).1 ≠ none ∧
    (Register (connectedWorld dirLib bootstrappedStore) (str "Arith") () []).1 =
      (leafPut (connectedWorld dirLib bootstrappedStore) bootstrappedStore (str "Arith")).1 ∧
    (leafPut (connectedWorld dirLib bootstrappedStore) bootstrappedStore (str "Arith")).1 = none :=
  ⟨by decide, Or.inl ⟨rfl, rfl⟩, by decide, by decide,
   ((C3_directory_writes (connectedWorld dirLib bootstrappedStore)
      (connectedWorld dirLib bootstrappedStore) bootstrappedStore (str "Arith") () []
      (by decide) (Or.inl ⟨rfl, rfl⟩)).2.2.2.2.2
      ((dirWriteFailed_false_iff _).1 (by decide))
      ((dirWriteFailed_false_iff _).1 (by decide))).2,
   by decide⟩

/-! ## C4: the leaf write -/

/-- C4. For a non-blank name: whenever `Register` reaches its writes and neither
directory write surfaces an error, any error `e` of the leaf `Put` (one whose
message contains "Not a file" as well) is what `Register` returns, and `name` is
not appended to `Services`; and `Register` returns nil only when it has reached
the leaf `Put` and that `Put` returned nil. -/
theorem C4_leaf_write_error {lib : Libkv} {ρ : Type} (w : World lib) (name : GoString)
    (rcvr : ρ) (metadata : GoString) (hname : strings.TrimSpace name ≠ []) :
    (∀ kv w0, reachesWrites w kv w0 →
      ¬ surfaces (basePut w0 kv).1 → ¬ surfaces (namePut w0 kv name).1 →
      ∀ e, (leafPut w0 kv name).1 = some e →
        (Register w name rcvr metadata).1 = some e ∧
        (Register w name rcvr metadata).2.p.Services = w.p.Services ∧
        (Register w name rcvr metadata).2.calls =
          w0.calls ++ [baseCall w0 kv, nameCall w0 kv name, leafCall w0 kv name]) ∧
    ((Register w name rcvr metadata).1 = none →
      ∃ kv w0, reachesWrites w kv w0 ∧ (leafPut w0 kv name).1 = none ∧
        (Register w name rcvr metadata).2.calls =
          w0.calls ++ [baseCall w0 kv, nameCall w0 kv name, leafCall w0 kv name]) := by
  constructor
  · intro kv w0 hr n1 n2 e he
    rw [register_eq_writes w w0 kv name rcvr metadata hname hr]
    have hS := (reachesWrites_fields w w0 kv hr).1
    rcases registerWrites_cases w0 kv name with
      ⟨s1, -⟩ | ⟨-, s2, -⟩ | ⟨-, -, -, e3, c, sv⟩ | ⟨-, -, h3, -⟩
    · exact absurd s1 n1
    · exact absurd s2 n2
    · exact ⟨e3.trans he, sv.trans hS, c⟩
    · rw [he] at h3; exact absurd h3 (by simp)
  · intro hnil
    obtain ⟨kv, w0, hr⟩ := register_nil_reaches w name rcvr metadata hname hnil
    refine ⟨kv, w0, hr, ?_⟩
    rw [register_eq_writes w w0 kv name rcvr metadata hname hr] at hnil ⊢
    rcases registerWrites_cases w0 kv name with
      ⟨s1, e1, -⟩ | ⟨-, s2, e2, -⟩ | ⟨-, -, h3, e3, -⟩ | ⟨-, -, h3, -, c, -⟩
    · obtain ⟨e, he, -⟩ := s1
      rw [e1, he] at hnil; exact absurd hnil (by simp)
    · obtain ⟨e, he, -⟩ := s2
      rw [e2, he] at hnil; exact absurd hnil (by simp)
    · rw [e3] at hnil; exact absurd hnil h3
    · exact ⟨h3, c⟩

/-- C4 over a store that refuses the leaf with a "Not a file" error: the error
is not absorbed, `Register` returns it and `Services` stays empty. -/
theorem C4_leaf_write_error_witness :
    strings.TrimSpace (str "Arith") ≠ [] ∧
    (Register (connectedWorld leafRefusingLib []) (str "Arith") () []).1 =
      some ⟨str "102: Not a file (/rpcx_test/Arith/tcp@127.0.0.1:8972)"⟩ ∧
    (Register (connectedWorld leafRefusingLib []) (str "Arith") () []).2.p.Services = [] :=
  ⟨by decide,
   ((C4_leaf_write_error (connectedWorld leafRefusingLib []) (str "Arith") () []
      (by decide)).1 [] (connectedWorld leafRefusingLib []) (Or.inl ⟨rfl, rfl⟩)
      ((dirWriteFailed_false_iff _).1 (by decide))
      ((dirWriteFailed_false_iff _).1 (by decide))
      ⟨str "102: Not a file (/rpcx_test/Arith/tcp@127.0.0.1:8972)"⟩ (by decide)).1,
   ((C4_leaf_write_error (connectedWorld leafRefusingLib []) (str "Arith") () []
      (by decide)).1 [] (connectedWorld leafRefusingLib []) (Or.inl ⟨rfl, rfl⟩)
      ((dirWriteFailed_false_iff _).1 (by decide))
      ((dirWriteFailed_false_iff _).1 (by decide))
      ⟨str "102: Not a file (/rpcx_test/Arith/tcp@127.0.0.1:8972)"⟩ (by decide)).2.1⟩

/-! ## C2: the leaf can be read back -/

/-- C2. Over a store whose `Get`, after a `Put` that succeeded, returns the
value put at that key: for every non-blank name, when `Register` returns nil
(its writes succeeded, or the directory writes failed with the absorbed
condition only), `Get` at `BasePath + "/" + name + "/" + ServiceAddress` on the
store it leaves returns a pair whose value is the bytes of `ServiceAddress`. -/
theorem C2_register_then_get {lib : Libkv} {ρ : Type} (w : World lib) (name : GoString)
    (rcvr : ρ) (metadata : GoString) (hname : strings.TrimSpace name ≠ [])
    (hget : ∀ kv key value opts, (lib.Put kv key value opts).1 = none →
      ∃ kvPair, (lib.Get (lib.Put kv key value opts).2 key).1 = .ok kvPair ∧
        kvPair.Value = value)
    (hnil : (Register w name rcvr metadata).1 = none) :
    ∃ kv kvPair, (Register w name rcvr metadata).2.p.KV = some kv ∧
      (lib.Get kv (w.p.BasePath ++ str "/" ++ name ++ str "/" ++ w.p.ServiceAddress)).1
        = .ok kvPair ∧
      kvPair.Value = w.p.ServiceAddress := by
  obtain ⟨kv, w0, hr⟩ := register_nil_reaches w name rcvr metadata hname hnil
  rw [register_eq_writes w w0 kv name rcvr metadata hname hr] at hnil ⊢
  obtain ⟨-, hB, hA, -⟩ := reachesWrites_fields w w0 kv hr
  rcases registerWrites_cases w0 kv name with
    ⟨s1, e1, -⟩ | ⟨-, s2, e2, -⟩ | ⟨-, -, h3, e3, -⟩ | ⟨-, -, h3, -, -, -, hk⟩
  · obtain ⟨e, he, -⟩ := s1
    rw [e1, he] at hnil; exact absurd hnil (by simp)
  · obtain ⟨e, he, -⟩ := s2
    rw [e2, he] at hnil; exact absurd hnil (by simp)
  · rw [e3] at hnil; exact absurd hnil h3
  · obtain ⟨kvPair, hg, hv⟩ := hget _ _ _ _ h3
    refine ⟨_, kvPair, hk, ?_, ?_⟩
    · rw [← hB, ← hA]; exact hg
    · rw [← hA]; exact hv

/-- C2 over a store in which both directories exist already, so that both
directory writes fail with the absorbed condition: `Register` returns nil and
the leaf read back holds the service address. -/
theorem C2_register_then_get_witness :
    strings.TrimSpace (str "Arith") ≠ [] ∧
    (Register (connectedWorld dirLib bootstrappedStore) (str "Arith") () []).1 = none ∧
    ∃ kv kvPair,
      (Register (connectedWorld dirLib bootstrappedStore) (str "Arith") () []).2.p.KV = some kv ∧
      (dirLib.Get kv (str "/rpcx_test" ++ str "/" ++ str "Arith" ++ str "/" ++
        str "tcp@127.0.0.1:8972")).1 = .ok kvPair ∧
      kvPair.Value = str "tcp@127.0.0.1:8972" :=
  ⟨by decide, by decide,
   C2_register_then_get (connectedWorld dirLib bootstrappedStore) (str "Arith") () []
     (by decide) dirLib_get_put (by decide)⟩

/-! ## C8: registering twice -/

/-- C8. Over the store that is a map whose `Put`s succeed, for every non-blank
name: `Register` succeeds, a second `Register` of the same name succeeds, and
the store after the second call equals the store after the first; it holds
exactly one entry at `BasePath/name/ServiceAddress`, whose value is
`ServiceAddress` (with the options of the leaf write). -/
theorem C8_register_twice {ρ : Type} (w : World mapLib) (name : GoString) (rcvr : ρ)
    (metadata : GoString) (hname : strings.TrimSpace name ≠ []) :
    (Register w name rcvr metadata).1 = none ∧
    (Register (Register w name rcvr metadata).2 name rcvr metadata).1 = none ∧
    (Register (Register w name rcvr metadata).2 name rcvr metadata).2.p.KV =
      (Register w name rcvr metadata).2.p.KV ∧
    ∃ m : MapStore,
      (Register (Register w name rcvr metadata).2 name rcvr metadata).2.p.KV = some m ∧
      m.filter (fun e => e.1 = w.p.BasePath ++ str "/" ++ name ++ str "/" ++ w.p.ServiceAddress)
        = [(w.p.BasePath ++ str "/" ++ name ++ str "/" ++ w.p.ServiceAddress,
            w.p.ServiceAddress, leafOptions w.p.UpdateInterval)] := by
  obtain ⟨kv, w0, hr⟩ := mapLib_reaches w
  obtain ⟨-, hB, hA, hU, -⟩ := reachesWrites_fields w w0 kv hr
  have e1 := register_eq_writes w w0 kv name rcvr metadata hname hr
  obtain ⟨a1, -, k1⟩ := mapLib_registerWrites w0 kv name
  obtain ⟨fB, fA, fU, -⟩ := registerWrites_fields w0 kv name
  have e2 := register_eq_writes (registerWrites w0 kv name).2 (registerWrites w0 kv name).2 _
    name rcvr metadata hname (Or.inl ⟨k1, rfl⟩)
  obtain ⟨a2, -, k2⟩ := mapLib_registerWrites (registerWrites w0 kv name).2 _ name
  rw [e1, e2]
  rw [fB, fA, fU, MapStore.put_put_put _ _ _ _ _ _ _ _ _ _ (path2_ne _ _) (path3_ne _ _ _)
    (path23_ne _ _ _)] at k2
  refine ⟨a1, a2, k2.trans k1.symm, _, k2, ?_⟩
  rw [← hB, ← hA, ← hU]
  exact MapStore.entries_put _ _ _ _

/-- C8 for the service `Arith` registered twice by `examplePlugin`, which
connects to the empty map at the first call. -/
theorem C8_register_twice_witness :
    strings.TrimSpace (str "Arith") ≠ [] ∧
    (Register (Register (exampleWorld mapLib) (str "Arith") () []).2 (str "Arith") () []).2.p.KV =
      (Register (exampleWorld mapLib) (str "Arith") () []).2.p.KV :=
  ⟨by decide, (C8_register_twice (exampleWorld mapLib) (str "Arith") () [] (by decide)).2.2.1⟩

/-! ## C9: `Services` only grows -/

/-- C9. `Services` is append-only and not deduplicated: a `Register` that
returns nil leaves `Services` equal to its previous contents followed by `name`
(also when `name` is there already: two successful calls leave it twice at the
end), a `Register` that returns an error leaves it as it was, and `Start`, a
refresh tick and `HandleConnAccept` leave it as it was. -/
theorem C9_services_append_only {lib : Libkv} {ρ γ : Type} (w : World lib) (name : GoString)
    (rcvr : ρ) (metadata : GoString) (conn : γ) :
    ((Register w name rcvr metadata).1 = none →
      (Register w name rcvr metadata).2.p.Services = w.p.Services ++ [name]) ∧
    ((Register w name rcvr metadata).1 ≠ none →
      (Register w name rcvr metadata).2.p.Services = w.p.Services) ∧
    ((Register w name rcvr metadata).1 = none →
      (Register (Register w name rcvr metadata).2 name rcvr metadata).1 = none →
      (Register (Register w name rcvr metadata).2 name rcvr metadata).2.p.Services =
        w.p.Services ++ [name, name]) ∧
    (Start w).2.p.Services = w.p.Services ∧
    (∀ w', refreshTick w = some w' → w'.p.Services = w.p.Services) ∧
    (HandleConnAccept w conn).2.p.Services = w.p.Services := by
  have hreg : ∀ v : World lib, (Register v name rcvr metadata).1 = none →
      (Register v name rcvr metadata).2.p.Services = v.p.Services ++ [name] := by
    intro v hnil
    rcases register_services_cases v name rcvr metadata with ⟨h, -⟩ | ⟨-, h⟩
    · exact absurd hnil h
    · exact h
  refine ⟨hreg w, ?_, ?_, start_services w, fun w' h => refreshTick_services w w' h, ?_⟩
  · intro hne
    rcases register_services_cases w name rcvr metadata with ⟨-, h⟩ | ⟨h, -⟩
    · exact h
    · exact absurd h hne
  · intro h1 h2
    rw [hreg _ h2, hreg w h1]
    simp
  · unfold HandleConnAccept
    cases w.p.Metrics <;> rfl

/-- C9 for the service `Arith` registered twice over the map store: both calls
return nil and `Services` holds the name twice. -/
theorem C9_services_append_only_witness :
    (Register (exampleWorld mapLib) (str "Arith") () []).1 = none ∧
    (Register (Register (exampleWorld mapLib) (str "Arith") () []).2 (str "Arith") () []).1
      = none ∧
    (Register (Register (exampleWorld mapLib) (str "Arith") () []).2
      (str "Arith") () []).2.p.Services = [] ++ [str "Arith", str "Arith"] :=
  ⟨by decide, by decide,
   (C9_services_append_only (exampleWorld mapLib) (str "Arith") () [] ()).2.2.1
     (by decide) (by decide)⟩

/-! ## C10: the connection hook -/

/-- C10, amended. `HandleConnAccept` returns the connection it was given and
`true`. When `Metrics` is not nil and the meter `clientMeter` of that registry
is running (a meter not yet registered is), its count becomes the `int64` sum of
the count and 1: one more than before for every count below the largest
`int64`; a stopped meter keeps its count; no other counter changes. When
`Metrics` is nil the world is unchanged. In all cases the store handle, the
history of store calls, `Services` and the default registry are as before. -/
theorem C10_handle_conn_accept {lib : Libkv} {γ : Type} (w : World lib) (conn : γ) :
    (HandleConnAccept w conn).1 = (conn, true) ∧
    (∀ r, w.p.Metrics = some r →
      ∃ r', (HandleConnAccept w conn).2.p.Metrics = some r' ∧
        (r.Stopped (str "clientMeter") = false →
          r'.Count (str "clientMeter") = wrapInt64 (r.Count (str "clientMeter") + 1)) ∧
        (r.Stopped (str "clientMeter") = false →
          -2 ^ 63 ≤ r.Count (str "clientMeter") → r.Count (str "clientMeter") < 2 ^ 63 - 1 →
          r'.Count (str "clientMeter") = r.Count (str "clientMeter") + 1) ∧
        (r.Stopped (str "clientMeter") = true →
          r'.Count (str "clientMeter") = r.Count (str "clientMeter")) ∧
        ∀ other, other ≠ str "clientMeter" → r'.Count other = r.Count other) ∧
    (w.p.Metrics = none → (HandleConnAccept w conn).2 = w) ∧
    (HandleConnAccept w conn).2.p.KV = w.p.KV ∧
    (HandleConnAccept w conn).2.calls = w.calls ∧
    (HandleConnAccept w conn).2.p.Services = w.p.Services ∧
    (HandleConnAccept w conn).2.DefaultRegistry = w.DefaultRegistry := by
  unfold HandleConnAccept
  cases h : w.p.Metrics with
  | none => simp
  | some r =>
    refine ⟨rfl, ?_, by simp, rfl, rfl, rfl, rfl⟩
    intro r0 hr0
    cases hr0
    have hrun : r.Stopped (str "clientMeter") = false →
        ((r.GetOrRegisterMeter (str "clientMeter")).Mark (str "clientMeter") 1).Count
          (str "clientMeter") = wrapInt64 (r.Count (str "clientMeter") + 1) := by
      intro hs
      rw [Registry.count_mark _ _ _ (Registry.lookup_getOrRegisterMeter r _)
        ((Registry.stopped_getOrRegisterMeter r _ _).trans hs),
        Registry.count_getOrRegisterMeter]
    refine ⟨_, rfl, hrun, ?_, ?_, ?_⟩
    · intro hs h1 h2
      rw [hrun hs, wrapInt64_of_range] <;> omega
    · intro hs
      rw [Registry.count_mark_stopped _ _ _
        ((Registry.stopped_getOrRegisterMeter r _ _).trans hs),
        Registry.count_getOrRegisterMeter]
    · intro other ho
      rw [Registry.count_mark_other _ _ _ _ ho, Registry.count_getOrRegisterMeter]

/-- C10 as stated fails: a running `clientMeter` that stands at the largest
`int64` stands at the smallest after the call, not one higher; and a stopped
`clientMeter` that stands at 41 still stands at 41. -/
theorem C10_handle_conn_accept_counterexample :
    ((HandleConnAccept ((exampleWorld mapLib).setMetrics
        (some [(str "clientMeter", ⟨9223372036854775807, false⟩)])) ()).2.p.Metrics.map
      (fun r => r.Count (str "clientMeter"))) = some (-9223372036854775808) ∧
    (-9223372036854775808 : Int) ≠ 9223372036854775807 + 1 ∧
    ((HandleConnAccept ((exampleWorld mapLib).setMetrics
        (some [(str "clientMeter", ⟨41, true⟩)])) ()).2.p.Metrics.map
      (fun r => r.Count (str "clientMeter"))) = some 41 ∧
    (41 : Int) ≠ 41 + 1 := by
  decide

/-- C10 on a registry whose running `clientMeter` stands at 41. -/
theorem C10_handle_conn_accept_witness :
    ∃ r', (HandleConnAccept
        ((exampleWorld mapLib).setMetrics (some [(str "clientMeter", ⟨41, false⟩)]))
          ()).2.p.Metrics = some r' ∧
      r'.Count (str "clientMeter") = 41 + 1 :=
  match (C10_handle_conn_accept
    ((exampleWorld mapLib).setMetrics (some [(str "clientMeter", ⟨41, false⟩)])) ()).2.1
    [(str "clientMeter", ⟨41, false⟩)] rfl with
  | ⟨r', h1, _, h2, _⟩ => ⟨r', h1, h2 (by decide) (by decide) (by decide)⟩

/-! ## C5: the TTL of the writes -/

/-- C5, amended. Every `Put` that `Register` adds to the history is either one
of the two directory writes (at `BasePath` or `BasePath/name`), which carry the
directory flag and no TTL, or the leaf write, whose TTL is the `int64` product
`2 * UpdateInterval`: equal to `2 * UpdateInterval` as an integer when
`-2^62 ≤ UpdateInterval < 2^62`, and zero (no TTL) when `UpdateInterval` is
zero. Every `Put` that a refresh tick adds is at the leaf of a name of
`Services` and carries that same TTL. -/
theorem C5_leaf_ttl {lib : Libkv} {ρ : Type} (w : World lib) (name : GoString) (rcvr : ρ)
    (metadata : GoString) :
    (∀ key value opts err,
      Call.Put key value opts err ∈ (Register w name rcvr metadata).2.calls →
      Call.Put key value opts err ∈ w.calls ∨
      ((key = w.p.BasePath ∨ key = w.p.BasePath ++ str "/" ++ name) ∧
        opts.IsDir = true ∧ opts.TTL = 0) ∨
      (key = w.p.BasePath ++ str "/" ++ name ++ str "/" ++ w.p.ServiceAddress ∧
        leafTTL w.p.UpdateInterval opts)) ∧
    (∀ w', refreshTick w = some w' → ∀ key value opts err,
      Call.Put key value opts err ∈ w'.calls →
      Call.Put key value opts err ∈ w.calls ∨
      ((∃ tracked ∈ w.p.Services,
          key = w.p.BasePath ++ str "/" ++ tracked ++ str "/" ++ w.p.ServiceAddress) ∧
        leafTTL w.p.UpdateInterval opts)) := by
  constructor
  · intro key value opts err hc
    rcases register_calls_cases w name rcvr metadata _ hc with h | h | ⟨o, e, h⟩ |
      ⟨kv, w0, hr, h⟩
    · exact Or.inl h
    · cases h
    · cases h
    · obtain ⟨-, hB, hA, hU, -⟩ := reachesWrites_fields w w0 kv hr
      rcases h with h | h | h
      · simp only [baseCall, Call.Put.injEq] at h
        obtain ⟨hk, -, ho, -⟩ := h
        subst ho
        exact Or.inr (Or.inl ⟨Or.inl (hk.trans hB), rfl, rfl⟩)
      · simp only [nameCall, Call.Put.injEq] at h
        obtain ⟨hk, -, ho, -⟩ := h
        subst ho
        exact Or.inr (Or.inl ⟨Or.inr (by rw [hk, hB]; rfl), rfl, rfl⟩)
      · simp only [leafCall, Call.Put.injEq] at h
        obtain ⟨hk, -, ho, -⟩ := h
        subst ho
        exact Or.inr (Or.inr ⟨by rw [hk, hB, hA]; rfl, hU ▸ leafTTL_leafOptions _⟩)
  · intro w' h key value opts err hc
    obtain ⟨segs, hcalls, hf⟩ := refreshTick_calls w w' h
    rw [hcalls] at hc
    rcases List.mem_append.1 hc with hc | hc
    · exact Or.inl hc
    · obtain ⟨seg, hseg, hmem⟩ := List.mem_flatten.1 hc
      obtain ⟨tracked, ht, hR⟩ := forall₂_mem_right hf seg hseg
      right
      rcases hR with ⟨e, rfl⟩ | ⟨kvPair, e, rfl⟩
      · simp at hmem
      · simp only [List.mem_cons, List.mem_singleton, List.mem_nil_iff, or_false,
          Call.Put.injEq] at hmem
        rcases hmem with hmem | hmem
        · cases hmem
        · obtain ⟨hk, -, ho, -⟩ := hmem
          subst ho
          exact ⟨⟨tracked, ht, hk⟩, leafTTL_leafOptions _⟩


/-- C5 as stated fails: with `UpdateInterval = 2^62` (within `int64`) the three
writes of `Register` carry the TTLs `0`, `0` and `-2^63`, and the last, that of
the leaf write, is not `2 * UpdateInterval = 2^63`. -/
theorem C5_leaf_ttl_counterexample :
    longIntervalWorld.p.UpdateInterval = 2 ^ 62 ∧
    -2 ^ 63 ≤ longIntervalWorld.p.UpdateInterval ∧ longIntervalWorld.p.UpdateInterval < 2 ^ 63 ∧
    (Register longIntervalWorld (str "Arith") () []).2.calls.map Call.key =
      [some (true, str "/rpcx_test"), some (true, str "/rpcx_test/Arith"),
       some (true, str "/rpcx_test/Arith/tcp@127.0.0.1:8972")] ∧
    (Register longIntervalWorld (str "Arith") () []).2.calls.map Call.ttl =
      [some 0, some 0, some (-9223372036854775808)] ∧
    (-9223372036854775808 : Int) ≠ 2 * longIntervalWorld.p.UpdateInterval := by
  decide

/-- C5 for `examplePlugin` (one minute between refreshes): the leaf write of
`Register` carries `2 * UpdateInterval`, two minutes. -/
theorem C5_leaf_ttl_witness :
    ∀ key value opts err,
      Call.Put key value opts err ∈
        (Register (connectedWorld mapLib []) (str "Arith") () []).2.calls →
      key = str "/rpcx_test" ++ str "/" ++ str "Arith" ++ str "/" ++ str "tcp@127.0.0.1:8972" →
      opts.TTL = 2 * 60000000000 := by
  intro key value opts err hmem hkey
  rcases (C5_leaf_ttl (connectedWorld mapLib []) (str "Arith") () []).1 key value opts err hmem
    with h | ⟨h, -⟩ | ⟨-, -, -, h, -⟩
  · simp [connectedWorld, World.setKV, exampleWorld] at h
  · exfalso
    rw [hkey] at h
    revert h
    decide
  · exact h (by decide) (by decide)

/-! ## C7: a failing node does not stop the refresh -/

/-- C7. In a world whose plugin holds a store handle (as it does once `Start`
has returned nil), whatever the store answers:
* for each name, the loop body completes; when the `Get` of the leaf fails it
  issues that `Get` and nothing else (no `Put`), and when the `Get` returns a
  pair it issues the `Get` and one `Put` at the same path, whose result,
  error or not, is not looked at;
* the whole tick completes, and the calls it adds to the history are, for the
  names of `Services` in order, a failed `Get` of the leaf alone or a `Get`
  followed by a `Put` at the same path;
* it leaves `Services` and the handle in place, logs lines of level `Info`
  only, and the loop runs for any number of ticks. -/
theorem C7_refresh_isolation {lib : Libkv} (w : World lib) (kv : lib.Store)
    (hkv : w.p.KV = some kv) :
    (∀ data name, ∃ w1, refreshService data w name = some w1 ∧
      (∀ err, (lib.Get kv (w.p.BasePath ++ str "/" ++ name ++ str "/" ++ w.p.ServiceAddress)).1
          = .error err →
        w1.calls = w.calls ++
          [Call.Get (w.p.BasePath ++ str "/" ++ name ++ str "/" ++ w.p.ServiceAddress)
            (.error err)]) ∧
      (∀ kvPair, (lib.Get kv (w.p.BasePath ++ str "/" ++ name ++ str "/" ++ w.p.ServiceAddress)).1
          = .ok kvPair →
        ∃ value opts, w1.calls = w.calls ++
          [Call.Get (w.p.BasePath ++ str "/" ++ name ++ str "/" ++ w.p.ServiceAddress)
            (.ok kvPair),
           Call.Put (w.p.BasePath ++ str "/" ++ name ++ str "/" ++ w.p.ServiceAddress)
            value opts
            (lib.Put
              (lib.Get kv (w.p.BasePath ++ str "/" ++ name ++ str "/" ++ w.p.ServiceAddress)).2
              (w.p.BasePath ++ str "/" ++ name ++ str "/" ++ w.p.ServiceAddress)
              value opts).1])) ∧
    (∃ w' segs, refreshTick w = some w' ∧
      w'.calls = w.calls ++ segs.flatten ∧
      List.Forall₂ (fun name seg =>
        (∃ err, seg =
          [Call.Get (w.p.BasePath ++ str "/" ++ name ++ str "/" ++ w.p.ServiceAddress)
            (.error err)]) ∨
        (∃ kvPair value opts err, seg =
          [Call.Get (w.p.BasePath ++ str "/" ++ name ++ str "/" ++ w.p.ServiceAddress)
            (.ok kvPair),
           Call.Put (w.p.BasePath ++ str "/" ++ name ++ str "/" ++ w.p.ServiceAddress)
            value opts err])) w.p.Services segs ∧
      w'.p.Services = w.p.Services ∧ (∃ kv', w'.p.KV = some kv') ∧
      ∃ infos, w'.logs = w.logs ++ infos ∧ ∀ l ∈ infos, l.1 = Level.Info) ∧
    (∀ n, ∃ w', refreshLoop n w = some w') := by
  refine ⟨?_, ?_, fun n => refreshLoop_total n w kv hkv⟩
  · intro data name
    obtain ⟨w1, h1, -, -, -, -, hseg⟩ := refreshService_spec data w kv name hkv
    refine ⟨w1, h1, ?_, ?_⟩
    · intro err he
      rcases hseg with ⟨err', he', hc, -⟩ | ⟨kvPair, he', -⟩
      · have he2 := he.symm.trans he'
        cases he2
        exact hc
      · have he2 := he.symm.trans he'
        cases he2
    · intro kvPair he
      rcases hseg with ⟨err', he', -⟩ | ⟨kvPair', he', hc, -⟩
      · have he2 := he.symm.trans he'
        cases he2
      · have he2 := he.symm.trans he'
        cases he2
        exact ⟨_, _, hc⟩
  · obtain ⟨w', segs, h, ⟨cS, -⟩, hk, hc, hf, hl⟩ := refreshTick_spec w kv hkv
    refine ⟨w', segs, h, hc, ?_, cS, hk, hl⟩
    refine hf.imp ?_
    intro name seg hR
    rcases hR with ⟨err, h⟩ | ⟨kvPair, err, h⟩
    · exact Or.inl ⟨err, h⟩
    · exact Or.inr ⟨kvPair, _, _, err, h⟩

/-- C7 where the leaf of `Arith` is missing: the tick completes with a `Get`
for `Arith`, then a `Get` and a `Put` for `Echo`. -/
theorem C7_refresh_isolation_witness :
    partialWorld.p.KV = some
      [(str "/rpcx_test/Echo/tcp@127.0.0.1:8972", str "tcp@127.0.0.1:8972",
        leafOptions 60000000000)] ∧
    (∃ w', refreshTick partialWorld = some w') ∧
    (refreshTick partialWorld).map (fun w' => w'.calls.map Call.key) = some
      [some (false, str "/rpcx_test/Arith/tcp@127.0.0.1:8972"),
       some (false, str "/rpcx_test/Echo/tcp@127.0.0.1:8972"),
       some (true, str "/rpcx_test/Echo/tcp@127.0.0.1:8972")] :=
  ⟨rfl,
   match (C7_refresh_isolation partialWorld _ rfl).2.1 with
   | ⟨w', _, h, _⟩ => ⟨w', h⟩,
   by decide⟩

namespace url

theorem Values.size_assign_le (v : Values) (key : GoString) (vs : List GoString) :
    (v.assign key vs).size ≤ v.size + vs.length := by
  induction v with
  | nil => simp [Values.assign, Values.size]
  | cons e v ih =>
    rw [Values.assign]
    by_cases he : e.1 = key
    · simp only [he, if_true, Values.size, List.map_cons, List.sum_cons]
      omega
    · simp only [he, if_false, Values.size, List.map_cons, List.sum_cons] at ih ⊢
      omega

theorem Values.size_assign_absent (v : Values) (key : GoString) (vs : List GoString)
    (h : v.lookup key = none) : (v.assign key vs).size = v.size + vs.length := by
  induction v with
  | nil => simp [Values.assign, Values.size]
  | cons e v ih =>
    obtain ⟨k, xs⟩ := e
    rw [List.lookup_cons] at h
    cases hk : (key == k) with
    | true => rw [hk] at h; simp at h
    | false =>
      rw [hk] at h
      have hne : ¬ k = key := fun e => by simp [e] at hk
      rw [Values.assign]
      simp only [hne, if_false, Values.size, List.map_cons, List.sum_cons] at ih ⊢
      have := ih h
      omega

theorem Values.size_add (m : Values) (p : GoString × GoString) :
    (m.add p).size = m.size + 1 := by
  unfold Values.add
  induction m with
  | nil => simp [Values.assign, Values.size, Values.index]
  | cons e m ih =>
    obtain ⟨k, xs⟩ := e
    rw [Values.assign]
    by_cases he : k = p.1
    · subst he
      simp [Values.size, Values.index, List.lookup_cons]
      omega
    · have hb : (p.1 == k) = false := by simpa using Ne.symm he
      have hidx : Values.index ((k, xs) :: m) p.1 = Values.index m p.1 := by
        simp [Values.index, List.lookup_cons, hb]
      rw [hidx]
      simp only [he, if_false, Values.size, List.map_cons, List.sum_cons] at ih ⊢
      omega

theorem Values.size_foldl_add (ps : List (GoString × GoString)) :
    ∀ m : Values, (ps.foldl Values.add m).size = m.size + ps.length := by
  induction ps with
  | nil => intro m; rfl
  | cons p ps ih =>
    intro m
    rw [List.foldl_cons, ih, Values.size_add, List.length_cons]
    omega

/-- What `Cut` at a byte leaves of the number of instances of that byte. -/
theorem cut_count (b : Byte) (q : GoString) :
    q.count b = (if (strings.Cut q [b]).2.2 then (strings.Cut q [b]).2.1.count b + 1 else 0) ∧
    ((strings.Cut q [b]).2.2 = false → (strings.Cut q [b]).2.1 = []) := by
  induction q with
  | nil => simp [strings.Cut]
  | cons c q ih =>
    simp only [strings.Cut, isPrefixOf_singleton]
    by_cases hbc : b = c
    · subst hbc; simp
    · have hcb : ¬ c = b := fun e => hbc e.symm
      simp only [hbc, decide_False, Bool.false_eq_true, if_false]
      rw [List.count_cons_of_ne hbc]
      exact ih

/-- The loop of `parseQuery` adds at most one value for each pair of the query,
and a query has one pair more than it has `&`. -/
theorem parseQueryLoop_size (fuel : Nat) :
    ∀ (m : Values) (err : Option Error) (query : GoString),
      (parseQueryLoop fuel m err query).1.size ≤
        m.size + (if query = [] then 0 else query.count 38 + 1) := by
  induction fuel with
  | zero => intro m err query; simp [parseQueryLoop]
  | succ fuel ih =>
    intro m err query
    by_cases hq : query = []
    · subst hq; simp [parseQueryLoop]
    · obtain ⟨hcount, hrest⟩ := cut_count 38 query
      rcases hcut : strings.Cut query [38] with ⟨key, rest, found⟩
      rw [hcut] at hcount hrest
      simp only at hcount hrest
      have hbound : (if rest = [] then 0 else rest.count 38 + 1) ≤ query.count 38 := by
        cases found with
        | true =>
          simp only [if_true] at hcount
          split_ifs <;> omega
        | false => simp [hrest rfl]
      have hstep : ∀ (m' : Values) (err' : Option Error), m'.size ≤ m.size + 1 →
          (parseQueryLoop fuel m' err' rest).1.size ≤ m.size + (query.count 38 + 1) := by
        intro m' err' hm'
        have := ih m' err' rest
        omega
      rw [parseQueryLoop]
      simp only [hq, if_false, hcut]
      split_ifs
      · exact hstep _ _ (Nat.le_succ _)
      · exact hstep _ _ (Nat.le_succ _)
      all_goals
        cases QueryUnescape (strings.Cut key [61]).1 with
        | error e => exact hstep _ _ (Nat.le_succ _)
        | ok k' =>
          cases QueryUnescape (strings.Cut key [61]).2.1 with
          | error e => exact hstep _ _ (Nat.le_succ _)
          | ok v' => exact hstep _ _ (Nat.le_of_eq (Values.size_add m (k', v')))

/-- The map `ParseQuery` builds holds at most one value for each pair of the
query. -/
theorem ParseQuery_size (query : GoString) :
    (ParseQuery query).1.size ≤ query.count 38 + 1 := by
  rw [ParseQuery, parseQuery]
  split
  · simp [Values.size]
  · have := parseQueryLoop_size query.length [] none query
    simp only [Values.size, List.map_nil, List.sum_nil, Nat.zero_add] at this ⊢
    split_ifs at this <;> omega

theorem Values.index_cons_self (k : GoString) (xs : List GoString) (v : Values) :
    Values.index ((k, xs) :: v) k = xs := by
  simp [Values.index, List.lookup_cons]

theorem Values.index_cons_ne (k k' : GoString) (xs : List GoString) (v : Values)
    (h : k' ≠ k) : Values.index ((k, xs) :: v) k' = Values.index v k' := by
  have hb : (k' == k) = false := by simpa using h
  simp [Values.index, List.lookup_cons, hb]

/-- Summed over the keys of a map that holds each key once, the values found at
the keys are the values the map holds. -/
theorem Values.sum_index (v : Values) (hv : (v.map Prod.fst).Nodup) :
    ((v.map Prod.fst).map (fun k => (v.index k).length)).sum = v.size := by
  induction v with
  | nil => rfl
  | cons e v ih =>
    obtain ⟨k, xs⟩ := e
    rw [List.map_cons, List.nodup_cons] at hv
    simp only [List.map_cons, List.sum_cons, Values.size, Values.index_cons_self]
    congr 1
    rw [← Values.size, ← ih hv.2]
    congr 1
    apply List.map_congr_left
    intro k' hk'
    rw [Values.index_cons_ne k k' xs v (fun e => hv.1 (e ▸ hk'))]

/-- A map that holds each key once is written by `Encode` as one pair for each
value it holds. -/
theorem Values.pairs_length (v : Values) (hv : (v.map Prod.fst).Nodup) :
    v.pairs.length = v.size := by
  have hperm := List.perm_insertionSort (fun a b : GoString => a ≤ b) (v.map Prod.fst)
  rw [← Values.sum_index v hv, Values.pairs, List.length_flatMap]
  have hfun : (List.length ∘ fun k => List.map (fun x => (k, x)) (v.index k)) =
      fun k => (v.index k).length := by
    funext k; simp
  rw [hfun]
  exact (hperm.map (fun k => (v.index k).length)).sum_eq

/-- The number of `&` in what `Encode` writes for a map that holds each key
once. -/
theorem Values.count_Encode (v : Values) (hv : (v.map Prod.fst).Nodup) :
    v.Encode.count 38 = v.size - 1 := by
  rw [Values.encode_eq_join, count_joinPairs, Values.pairs_length v hv]

end url

/-- The number of pairs of the value the refresh loop writes back: at most one
more than the stored value has. -/
theorem rewritten_count_le (s data : GoString) :
    strings.Count (rewritten s data) (str "&") + 1 ≤ (strings.Count s (str "&") + 1) + 1 := by
  have hwf := url.Values.wf_Set _ (str "tps") data (url.ParseQuery_wf s)
  have h1 := url.Values.count_Encode _ hwf.1
  have h2 := url.Values.size_assign_le (url.ParseQuery s).1 (str "tps") [data]
  have h3 := url.ParseQuery_size s
  simp only [str_amp, strings.Count, rewritten, List.length_singleton] at h1 h2 h3 ⊢
  rw [h1]
  simp only [url.Values.Set]
  omega


/-- A refresh tick of a plugin that tracks one name whose leaf is read: the two
calls it adds to the history. -/
theorem refreshTick_single {lib : Libkv} (w : World lib) (kv kv1 : lib.Store)
    (name : GoString) (kvPair : KVPair) (hkv : w.p.KV = some kv)
    (hS : w.p.Services = [name])
    (hget : lib.Get kv (sprintfPath3 w.p.BasePath name w.p.ServiceAddress) = (.ok kvPair, kv1)) :
    ∃ w', refreshTick w = some w' ∧
      w'.calls = w.calls ++
        [Call.Get (sprintfPath3 w.p.BasePath name w.p.ServiceAddress) (.ok kvPair),
         Call.Put (sprintfPath3 w.p.BasePath name w.p.ServiceAddress)
           (rewritten kvPair.Value
             (strconv.FormatInt ((w.registry.Count (str "clientMeter")).tdiv 60)))
           (leafOptions w.p.UpdateInterval)
           (lib.Put kv1 (sprintfPath3 w.p.BasePath name w.p.ServiceAddress)
             (rewritten kvPair.Value
               (strconv.FormatInt ((w.registry.Count (str "clientMeter")).tdiv 60)))
             (leafOptions w.p.UpdateInterval)).1] := by
  obtain ⟨⟨cS, cB, cA, cU, -, -⟩, hk, hc, -, hcount⟩ :=
    World.getOrRegisterMeter_fields w (str "clientMeter")
  obtain ⟨w1, h1, -, -, -, -, hseg⟩ := refreshService_spec
    (strconv.FormatInt
      (((w.getOrRegisterMeter (str "clientMeter")).registry.Count (str "clientMeter")).tdiv 60))
    (w.getOrRegisterMeter (str "clientMeter")) kv name (hk.trans hkv)
  rw [hcount, cB, cA, cU, hc, hget] at hseg
  rw [hcount] at h1
  refine ⟨w1, ?_, ?_⟩
  · unfold refreshTick
    simp only [hcount, cS, hS, List.foldlM_cons, List.foldlM_nil, h1]
    rfl
  · rcases hseg with ⟨err, he, -⟩ | ⟨kvPair', he, hcalls, -⟩
    · cases he
    · cases he
      exact hcalls


/-! ## C6: what a refresh tick writes -/

/-- C6, amended. In a world whose plugin holds a store handle and whose counter
`clientMeter` stands at `c`, a refresh tick completes and, for each name of
`Services` in order, either the `Get` of its leaf failed, or it returned a pair
and the tick put back at the same path the encoding of the decoding of the
stored value with the key `tps` set to the single value `FormatInt(c / 60)`
(the division of Go). That value holds at most 10000 pairs whenever the stored
value holds fewer than 10000; and when it holds at most 10000 pairs, decoded as
a query string it decodes without error to the decoding of the stored value with
`tps` set: `tps` holds that value alone and every other key holds the values it
had. -/
theorem C6_refresh_sets_tps {lib : Libkv} (w : World lib) (kv : lib.Store)
    (hkv : w.p.KV = some kv) :
    ∃ w' segs, refreshTick w = some w' ∧
      w'.calls = w.calls ++ segs.flatten ∧
      List.Forall₂ (fun name seg =>
        (∃ err, seg =
          [Call.Get (w.p.BasePath ++ str "/" ++ name ++ str "/" ++ w.p.ServiceAddress)
            (.error err)]) ∨
        (∃ kvPair value opts err, seg =
          [Call.Get (w.p.BasePath ++ str "/" ++ name ++ str "/" ++ w.p.ServiceAddress)
            (.ok kvPair),
           Call.Put (w.p.BasePath ++ str "/" ++ name ++ str "/" ++ w.p.ServiceAddress)
            value opts err] ∧
          value = ((url.ParseQuery kvPair.Value).1.Set (str "tps")
            (strconv.FormatInt ((w.registry.Count (str "clientMeter")).tdiv 60))).Encode ∧
          (strings.Count kvPair.Value (str "&") + 1 < 10000 →
            strings.Count value (str "&") + 1 ≤ 10000) ∧
          (strings.Count value (str "&") + 1 ≤ 10000 →
            (url.ParseQuery value).2 = none ∧
            (∀ key, (url.ParseQuery value).1.lookup key =
              ((url.ParseQuery kvPair.Value).1.Set (str "tps")
                (strconv.FormatInt
                  ((w.registry.Count (str "clientMeter")).tdiv 60))).lookup key) ∧
            (url.ParseQuery value).1.lookup (str "tps") =
              some [strconv.FormatInt ((w.registry.Count (str "clientMeter")).tdiv 60)] ∧
            (∀ key, key ≠ str "tps" →
              (url.ParseQuery value).1.lookup key =
                (url.ParseQuery kvPair.Value).1.lookup key))))
        w.p.Services segs := by
  obtain ⟨w', segs, h, -, -, hc, hf, -⟩ := refreshTick_spec w kv hkv
  refine ⟨w', segs, h, hc, hf.imp ?_⟩
  intro name seg hR
  rcases hR with ⟨err, h⟩ | ⟨kvPair, err, h⟩
  · exact Or.inl ⟨err, h⟩
  · refine Or.inr ⟨kvPair, _, _, err, h, rfl, ?_, ?_⟩
    · intro hs
      have := rewritten_count_le kvPair.Value
        (strconv.FormatInt ((w.registry.Count (str "clientMeter")).tdiv 60))
      omega
    · intro hv
      exact rewritten_decodes kvPair.Value
        (strconv.FormatInt ((w.registry.Count (str "clientMeter")).tdiv 60)) hv

/-- C6 as stated fails: the stored value `a=&a=& ... &a=` of 10000 pairs decodes
without error, and with `tps` set its decoding holds `tps`; the tick reads it and
writes back a value of 10001 pairs, which `ParseQuery` refuses: decoded, the
value written back is the empty map and holds no `tps`. -/
theorem C6_refresh_sets_tps_counterexample :
    (url.ParseQuery crowdedValue).2 = none ∧
    ((url.ParseQuery crowdedValue).1.Set (str "tps") (str "2")).lookup (str "tps") =
      some [str "2"] ∧
    (∃ w', refreshTick crowdedWorld = some w' ∧
      w'.calls =
        [Call.Get (str "/rpcx_test/Echo/tcp@127.0.0.1:8972")
          (.ok ⟨str "/rpcx_test/Echo/tcp@127.0.0.1:8972", crowdedValue, 0⟩),
         Call.Put (str "/rpcx_test/Echo/tcp@127.0.0.1:8972")
          (rewritten crowdedValue (str "2")) (leafOptions 60000000000) none]) ∧
    url.ParseQuery (rewritten crowdedValue (str "2")) = ([], some url.Error.TooManyParams) ∧
    (url.ParseQuery (rewritten crowdedValue (str "2"))).1.lookup (str "tps") = none := by
  have hlen : (List.replicate 10000 (str "a", ([] : GoString))).length = 10000 :=
    List.length_replicate _ _
  have hparse : url.ParseQuery crowdedValue =
      ((List.replicate 10000 (str "a", ([] : GoString))).foldl url.Values.add [], none) :=
    url.ParseQuery_joinPairs _ (le_of_eq hlen)
  have hfilter : ∀ n : Nat, (List.replicate n (str "a", ([] : GoString))).filter
      (fun p => decide (p.1 = str "tps")) = [] := by
    intro n
    rw [List.filter_eq_nil_iff]
    intro p hp
    rw [List.eq_of_mem_replicate hp]
    decide
  have habsent : (url.ParseQuery crowdedValue).1.lookup (str "tps") = none := by
    rw [hparse]
    simp only
    rw [url.Values.lookup_foldl_add, hfilter 10000]
    rfl
  have hsize : ((url.ParseQuery crowdedValue).1.Set (str "tps") (str "2")).size = 10001 := by
    rw [url.Values.Set, url.Values.size_assign_absent _ _ _ habsent, hparse]
    simp only
    rw [url.Values.size_foldl_add, hlen]
    rfl
  have hwf := url.Values.wf_Set _ (str "tps") (str "2") (url.ParseQuery_wf crowdedValue)
  have hrefused : url.ParseQuery (rewritten crowdedValue (str "2")) =
      ([], some url.Error.TooManyParams) := by
    rw [rewritten, url.Values.encode_eq_join]
    apply url.ParseQuery_joinPairs_refused
    rw [url.Values.pairs_length _ hwf.1, hsize]
    exact Nat.lt_succ_self 10000
  refine ⟨by rw [hparse], ?_, ?_, hrefused, by rw [hrefused]; rfl⟩
  · rw [url.Values.Set, url.Values.lookup_assign, if_pos rfl]
  · have hpath : sprintfPath3 crowdedWorld.p.BasePath (str "Echo")
        crowdedWorld.p.ServiceAddress = str "/rpcx_test/Echo/tcp@127.0.0.1:8972" := by decide
    have hdata : strconv.FormatInt ((crowdedWorld.registry.Count (str "clientMeter")).tdiv 60)
        = str "2" := by decide
    have hget : mapLib.Get
        [(str "/rpcx_test/Echo/tcp@127.0.0.1:8972", crowdedValue, leafOptions 60000000000)]
        (sprintfPath3 crowdedWorld.p.BasePath (str "Echo") crowdedWorld.p.ServiceAddress) =
        (.ok ⟨str "/rpcx_test/Echo/tcp@127.0.0.1:8972", crowdedValue, 0⟩,
         [(str "/rpcx_test/Echo/tcp@127.0.0.1:8972", crowdedValue,
           leafOptions 60000000000)]) := by
      rw [hpath]
      show MapStore.get
        [(str "/rpcx_test/Echo/tcp@127.0.0.1:8972", crowdedValue, leafOptions 60000000000)]
        (str "/rpcx_test/Echo/tcp@127.0.0.1:8972") = _
      rw [MapStore.get, List.lookup_cons, beq_self_eq_true]
    obtain ⟨w', h1, h2⟩ := refreshTick_single crowdedWorld _ _ (str "Echo") _ rfl rfl hget
    rw [hpath, hdata] at h2
    exact ⟨w', h1, h2⟩

/-- C6 with the counter at 120: the tick completes and the value written for
`Echo`, of two pairs, contains `tps=2`; and `foo=bar` rewritten with the rate `5`
decodes to both `foo=bar` and `tps=5`. -/
theorem C6_refresh_sets_tps_witness :
    partialWorld.p.KV = some
      [(str "/rpcx_test/Echo/tcp@127.0.0.1:8972", str "tcp@127.0.0.1:8972",
        leafOptions 60000000000)] ∧
    (∃ w', refreshTick partialWorld = some w') ∧
    partialWorld.registry.Count (str "clientMeter") = 120 ∧
    (refreshTick partialWorld).map (fun w' => w'.p.KV.map (fun m => m.lookup
        (str "/rpcx_test/Echo/tcp@127.0.0.1:8972"))) =
      some (some (some (str "tcp%40127.0.0.1%3A8972=&tps=2", leafOptions 60000000000))) ∧
    strings.Count (str "tcp%40127.0.0.1%3A8972=&tps=2") (str "&") + 1 = 2 ∧
    strings.Contains (str "tcp%40127.0.0.1%3A8972=&tps=2") (str "tps=2") = true ∧
    rewritten (str "foo=bar") (str "5") = str "foo=bar&tps=5" ∧
    (url.ParseQuery (rewritten (str "foo=bar") (str "5"))).1.lookup (str "foo")
      = some [str "bar"] ∧
    (url.ParseQuery (rewritten (str "foo=bar") (str "5"))).1.lookup (str "tps")
      = some [str "5"] :=
  ⟨rfl,
   match C6_refresh_sets_tps partialWorld _ rfl with
   | ⟨w', _, h, _⟩ => ⟨w', h⟩,
   by decide, by decide, by decide, by decide, by decide, by decide, by decide⟩

end Rpcx
